import Mathlib

/-!
Verification development for the dashcam client call-session core
(`src/App.tsx` of the dashcam-client repository).

The file embeds, as executable Lean definitions:
  * the ICE-candidate normalizer `parseIceCandidate` (App.tsx lines 31-53),
    including the semantics of the JavaScript regular expressions it uses
    (unanchored leftmost search, greedy character classes); and
  * the call-session event loop: the `incoming-call` / `incoming-video-call`
    handler `handleIncomingCall`, the `webrtc-signal` / `webrtc-video-signal`
    handlers, the `call-ended` / `video-call-ended` handlers, the peer
    connection state-change callbacks, the socket `disconnect` handler and
    the 3-second status-reset timer, as one step function on an explicit
    world state that tracks every media stream and peer connection ever
    created (so that release obligations can be stated).

Machine integers do not occur; JavaScript `parseInt` on an all-digit string
is modelled as the exact decimal value (a `Nat`).
-/

set_option maxHeartbeats 1000000
set_option synthInstance.maxHeartbeats 200000

/-! ### JavaScript character classes (for the regexes in `parseIceCandidate`) -/

/-- JavaScript `\s` restricted to `Char`: the WhiteSpace and LineTerminator
set used by the `\S` class in the candidate-line regex. -/
def jsIsSpace (c : Char) : Bool :=
  c == ' ' || c == '\t' || c == '\n' || c == '\r' ||
  c == '\u000b' || c == '\u000c' || c == '\u00a0' || c == '\u1680' ||
  c == '\u2000' || c == '\u2001' || c == '\u2002' || c == '\u2003' ||
  c == '\u2004' || c == '\u2005' || c == '\u2006' || c == '\u2007' ||
  c == '\u2008' || c == '\u2009' || c == '\u200a' || c == '\u2028' ||
  c == '\u2029' || c == '\u202f' || c == '\u205f' || c == '\u3000' ||
  c == '\ufeff'

/-- JavaScript `\S`. -/
def jsIsNonSpace (c : Char) : Bool := !(jsIsSpace c)

/-- JavaScript `\d`. -/
def jsIsDigit (c : Char) : Bool := c.isDigit

/-- JavaScript `\w`. -/
def jsIsWord (c : Char) : Bool := c.isAlpha || c.isDigit || c == '_'

/-- JavaScript `.` (anything but a line terminator). -/
def jsIsDot (c : Char) : Bool :=
  !(c == '\n' || c == '\r' || c == '\u2028' || c == '\u2029')

/-! ### Small list machinery shared by the regex embedding -/

/-- Greedy run of a character class (`C+`/`C*` maximal munch). -/
def takeW (p : Char → Bool) : List Char → List Char
  | [] => []
  | c :: cs => if p c then c :: takeW p cs else []

/-- What is left after the greedy run. -/
def dropW (p : Char → Bool) : List Char → List Char
  | [] => []
  | c :: cs => if p c then dropW p cs else c :: cs

/-- Match a literal at the head of the input, returning the remainder. -/
def matchLit : List Char → List Char → Option (List Char)
  | [], cs => some cs
  | _, [] => none
  | l :: ls, c :: cs => if c = l then matchLit ls cs else none

/-- `sufx w m` : `w` is a suffix of `m`. -/
def sufx (w : List Char) : List Char → Bool
  | [] => w.isEmpty
  | c :: m' => (w == c :: m') || sufx w m'

/-- Does the literal occur anywhere in the input? -/
def hasLit (lit : List Char) : List Char → Bool
  | [] => false
  | c :: cs => (matchLit lit (c :: cs)).isSome || hasLit lit cs

/-- One attempt of a subpattern `lit(C+)` at the current position:
the literal, then a non-empty greedy class run (the capture group). -/
def tryTok (lit : List Char) (p : Char → Bool) (cs : List Char) :
    Option (List Char) :=
  match matchLit lit cs with
  | none => none
  | some r =>
    let v := takeW p r
    if v.isEmpty then none else some v

/-- Unanchored leftmost search for `lit(C+)`, as JavaScript
`String.prototype.match` does for the `sdpMid`/`sdpMLineIndex`/`ufrag`
subpatterns; returns the capture group of the first full match. -/
def findTok (lit : List Char) (p : Char → Bool) : List Char → Option (List Char)
  | [] => none
  | c :: cs =>
    match tryTok lit p (c :: cs) with
    | some v => some v
    | none => findTok lit p cs

/-- JavaScript `parseInt` on an all-digit capture group. -/
def digitsToNat (l : List Char) : Nat :=
  l.foldl (fun n c => n * 10 + (c.toNat - '0'.toNat)) 0

/-! ### The candidate-line regex
`/candidate:(\S+) (\d+) (\w+) (\d+) (\S+) (\d+) typ (\w+)(.*)/` -/

def candTag : List Char := "candidate:".data

def typTag : List Char := "typ ".data

def midTag : List Char := "sdpMid ".data

def mliTag : List Char := "sdpMLineIndex ".data

def ufragTag : List Char := "ufrag ".data

/-- The eight capture groups of the candidate-line regex. -/
structure CandGroups where
  fnd : List Char
  cmp : List Char
  prot : List Char
  prio : List Char
  ip : List Char
  port : List Char
  ty : List Char
  rest : List Char
deriving DecidableEq, Repr

/-- Greedy class run followed by a literal `' '` separator.
Sound for the classes used here because none of them matches `' '`,
so the regex engine's backtracking can never shorten the run. -/
def candTokSp (p : Char → Bool) (cs : List Char) :
    Option (List Char × List Char) :=
  let v := takeW p cs
  if v.isEmpty then none
  else
    match dropW p cs with
    | ' ' :: r => some (v, r)
    | _ => none

/-- Try the whole candidate-line regex at one position. -/
def candMatchAt (cs : List Char) : Option CandGroups :=
  match matchLit candTag cs with
  | none => none
  | some r0 =>
    match candTokSp jsIsNonSpace r0 with
    | none => none
    | some (fnd, r1) =>
      match candTokSp jsIsDigit r1 with
      | none => none
      | some (cmp, r2) =>
        match candTokSp jsIsWord r2 with
        | none => none
        | some (prot, r3) =>
          match candTokSp jsIsDigit r3 with
          | none => none
          | some (prio, r4) =>
            match candTokSp jsIsNonSpace r4 with
            | none => none
            | some (ip, r5) =>
              match candTokSp jsIsDigit r5 with
              | none => none
              | some (port, r6) =>
                match matchLit typTag r6 with
                | none => none
                | some r7 =>
                  let ty := takeW jsIsWord r7
                  if ty.isEmpty then none
                  else some ⟨fnd, cmp, prot, prio, ip, port, ty,
                    takeW jsIsDot (dropW jsIsWord r7)⟩

/-- Unanchored leftmost search of the candidate-line regex. -/
def findCand : List Char → Option CandGroups
  | [] => none
  | c :: cs =>
    match candMatchAt (c :: cs) with
    | some g => some g
    | none => findCand cs

/-- The template string
`` `candidate:${foundation} ${component} ${protocol} ${priority} ${ip} ${port} typ ${type}${rest}` ``
rebuilt from the capture groups (App.tsx line 41). -/
def rebuildCand (g : CandGroups) : List Char :=
  candTag ++ g.fnd ++ ' ' :: (g.cmp ++ ' ' :: (g.prot ++ ' ' :: (g.prio ++
    ' ' :: (g.ip ++ ' ' :: (g.port ++ ' ' :: (typTag ++ g.ty ++ g.rest))))))

/-- The argument type of `parseIceCandidate`:
`RTCIceCandidateInit | string`. -/
structure RTCIceCandidateInit where
  candidate : String
  sdpMid : Option String
  sdpMLineIndex : Option Nat
  usernameFragment : Option String
deriving DecidableEq, Repr

inductive CandInput
  | structured (c : RTCIceCandidateInit)
  | line (s : String)
deriving DecidableEq, Repr

/-- `parseIceCandidate` (App.tsx lines 31-53). A structured candidate is
returned as-is; a string is run through the candidate-line regex, with
`sdpMid` defaulting to `"0"`, `sdpMLineIndex` to `parseInt("0")`, and
`usernameFragment` to `undefined` when the trailer token is absent. -/
def parseIceCandidate : CandInput → Option RTCIceCandidateInit
  | .structured c => some c
  | .line s =>
    match findCand s.data with
    | none => none
    | some g =>
      some
        { candidate := (rebuildCand g).asString
          sdpMid := some ((findTok midTag jsIsNonSpace g.rest).getD "0".data).asString
          sdpMLineIndex := some (digitsToNat ((findTok mliTag jsIsDigit g.rest).getD "0".data))
          usernameFragment := (findTok ufragTag jsIsNonSpace g.rest).map List.asString }

/-- The trailer carrying all three optional tokens, in the canonical order
`sdpMid <v> sdpMLineIndex <v> ufrag <v>`. -/
def trailerFull (mid idx uf : List Char) : List Char :=
  ' ' :: ("sdpMid".data ++ ' ' :: (mid ++ ' ' :: ("sdpMLineIndex".data ++
    ' ' :: (idx ++ ' ' :: ("ufrag".data ++ ' ' :: uf)))))

/-- A candidate line whose trailer carries all three optional tokens. -/
def mkFullLine (fnd cmp prot prio ip port ty mid idx uf : List Char) : String :=
  (rebuildCand ⟨fnd, cmp, prot, prio, ip, port, ty, trailerFull mid idx uf⟩).asString

/-- A candidate line with an empty trailer (no optional tokens). -/
def mkBareLine (fnd cmp prot prio ip port ty : List Char) : String :=
  (rebuildCand ⟨fnd, cmp, prot, prio, ip, port, ty, []⟩).asString

/-! ### The call-session event loop

World state for `App.tsx`'s `useEffect` body.  Every media stream returned
by `getUserMedia` and every `RTCPeerConnection` ever constructed is kept in
a ledger (`streams` / `pcs`) with its release flag, so that the resource
claims can be stated; `pcRef` / `localStreamRef` model the two refs of the
component.  In this first model each handler runs to completion per
delivered event, in transport-delivery order: it captures the serialized
executions, in which every `await` a handler performs settles before the
next inbound event is processed.  The async `handleIncomingCall` is split
at its `getUserMedia` suspension point further below (`stepArrive` /
`stepResolve`), where interleaved invocations matter. -/

/-- One `MediaStream` from `getUserMedia`; `stopped` means all of its
capture tracks have been stopped. -/
structure StreamE where
  id : Nat
  stopped : Bool
deriving DecidableEq, Repr

/-- One `RTCPeerConnection`.  `isVideo` and `admin` are the values captured
by its callbacks' closure in `handleIncomingCall`; `remoteDescSet` models
`pc.remoteDescription` being non-null; `added` records each remote candidate
handed to `pc.addIceCandidate`, tagged with the channel (`true` = the
`webrtc-video-signal` channel) on which it arrived. -/
structure PcE where
  id : Nat
  closed : Bool
  isVideo : Bool
  admin : String
  remoteDescSet : Bool
  added : List (Bool × RTCIceCandidateInit)
deriving DecidableEq, Repr

/-- Outbound socket emissions of the call core, in emission order.
`videoCh = true` means the message went out on the video channel
(`webrtc-video-signal` / `video-call-ended`). -/
inductive OutMsg
  | ready (videoCh : Bool) (dst : String)
  | answer (videoCh : Bool) (dst : String)
  | ended (videoCh : Bool) (dst : String)
deriving DecidableEq, Repr

/-- Payload of an inbound `webrtc-signal` / `webrtc-video-signal` message. -/
inductive SigData
  | offer (sdp : String)
  | cand (c : CandInput)
  | other
deriving DecidableEq, Repr

/-- `pc.connectionState` values distinguished by `onconnectionstatechange`. -/
inductive ConnS
  | connected
  | failed
  | disconnected
  | another (s : String)
deriving DecidableEq, Repr

/-- `pc.iceConnectionState` values distinguished by
`oniceconnectionstatechange`. -/
inductive IceS
  | failed
  | disconnected
  | another (s : String)
deriving DecidableEq, Repr

/-- The inbound events the event loop reacts to.  `incomingCall` carries the
result of the `getUserMedia` call it performs (`mediaOk`, with the error's
`name`/`message` when it fails); `trackEv` is the `pc.ontrack` callback
(`kindAudio` = the received track is audio); `graceTick` is the 3-second
`setTimeout` from the call-ended handlers firing. -/
inductive Ev
  | incomingCall (admin : String) (isVideo mediaOk : Bool) (errName errMsg : String)
  | signalMsg (videoCh : Bool) (src : String) (data : SigData)
  | connChange (s : ConnS)
  | iceChange (s : IceS)
  | endedMsg (videoCh : Bool)
  | trackEv (kindAudio : Bool)
  | socketDrop
  | graceTick
deriving DecidableEq, Repr

structure World where
  nextId : Nat
  streams : List StreamE
  pcs : List PcE
  pcRef : Option Nat
  localStreamRef : Option Nat
  /-- `remoteAudioRef.current.srcObject` is set. -/
  remoteSrc : Bool
  callStatus : String
  isCallActive : Bool
  /-- a status-reset `setTimeout` is pending. -/
  pendingReset : Bool
  /-- ghost: number of `getUserMedia` calls made so far. -/
  acquireCount : Nat
  outbox : List OutMsg
deriving DecidableEq, Repr

/-- `stopMediaTracks(localStreamRef.current)`: stop every track of the
referenced stream (a no-op when the ref is null). -/
def stopId (r : Option Nat) (l : List StreamE) : List StreamE :=
  l.map fun e => if some e.id = r then { e with stopped := true } else e

/-- `pcRef.current.close()` on the referenced connection. -/
def closeId (r : Option Nat) (l : List PcE) : List PcE :=
  l.map fun p => if some p.id = r then { p with closed := true } else p

/-- The `RTCPeerConnection` currently designated by `pcRef`. -/
def getPc (w : World) : Option PcE :=
  match w.pcRef with
  | none => none
  | some i => w.pcs.find? fun p => p.id == i

/-- Update the `RTCPeerConnection` currently designated by `pcRef`. -/
def setPc (w : World) (f : PcE → PcE) : World :=
  match w.pcRef with
  | none => w
  | some i => { w with pcs := w.pcs.map fun p => if p.id = i then f p else p }

/-- `handleIncomingCall(adminSocketId, isVideo)` (App.tsx lines 99-258),
including the media-failure early return (lines 140-146). -/
def stepIncomingCall (w : World) (admin : String) (isVideo mediaOk : Bool)
    (errName errMsg : String) : World :=
  let w := { w with
    callStatus := "Incoming " ++ (if isVideo then "video" else "audio") ++
      " call - Setting up connection..."
    isCallActive := true }
  let w := { w with
    streams := stopId w.localStreamRef w.streams
    localStreamRef := none }
  let w := { w with acquireCount := w.acquireCount + 1 }
  if mediaOk then
    let sid := w.nextId
    let w := { w with
      nextId := w.nextId + 1
      streams := w.streams ++ [({ id := sid, stopped := false } : StreamE)]
      localStreamRef := some sid
      callStatus := (if isVideo then "Camera and microphone" else "Microphone") ++
        " access granted" }
    let w := { w with pcs := closeId w.pcRef w.pcs, pcRef := none }
    let pid := w.nextId
    let w := { w with
      nextId := w.nextId + 1
      pcs := w.pcs ++ [({ id := pid, closed := false, isVideo := isVideo, admin := admin, remoteDescSet := false, added := [] } : PcE)]
      pcRef := some pid }
    let w := { w with outbox := w.outbox ++ [OutMsg.ready isVideo admin] }
    { w with callStatus := "Ready - Waiting for " ++
        (if isVideo then "video" else "audio") ++ " offer..." }
  else
    { w with
      callStatus := "Media error: " ++ errName ++ " - " ++ errMsg
      isCallActive := false
      outbox := w.outbox ++ [OutMsg.ended isVideo admin] }

/-- The `webrtc-signal` (audio, `videoCh = false`) and `webrtc-video-signal`
(video, `videoCh = true`) handlers (App.tsx lines 270-332).  Both read the
single `pcRef`; they differ only in the channel used for the reply and in
the status string. -/
def stepSignal (w : World) (videoCh : Bool) (src : String) (data : SigData) :
    World :=
  match getPc w with
  | none => w
  | some p =>
    match data with
    | .offer _ =>
      let w := setPc w fun q => { q with remoteDescSet := true }
      let w := { w with outbox := w.outbox ++ [OutMsg.answer videoCh src] }
      { w with callStatus := "Answer sent - Establishing " ++
          (if videoCh then "video" else "audio") ++ " connection..." }
    | .cand c =>
      match parseIceCandidate c with
      | some cc =>
        if p.remoteDescSet then
          setPc w fun q => { q with added := q.added ++ [(videoCh, cc)] }
        else w
      | none => w
    | .other => w

/-- `pc.onconnectionstatechange` (App.tsx lines 234-249) of the current
connection. -/
def stepConn (w : World) (s : ConnS) : World :=
  match getPc w with
  | none => w
  | some p =>
    match s with
    | .connected =>
      { w with callStatus := (if p.isVideo then "Video and audio" else "Audio") ++
          " active" }
    | .failed =>
      { w with callStatus := "Connection failed", isCallActive := false
               outbox := w.outbox ++ [OutMsg.ended p.isVideo p.admin] }
    | .disconnected =>
      { w with callStatus := "Disconnected", isCallActive := false
               outbox := w.outbox ++ [OutMsg.ended p.isVideo p.admin] }
    | .another st =>
      { w with callStatus := "Connecting... (" ++ st ++ ")" }

/-- `pc.oniceconnectionstatechange` (App.tsx lines 224-231). -/
def stepIce (w : World) (s : IceS) : World :=
  match getPc w with
  | none => w
  | some p =>
    match s with
    | .failed =>
      { w with callStatus := "ICE connection failed", isCallActive := false
               outbox := w.outbox ++ [OutMsg.ended p.isVideo p.admin] }
    | .disconnected =>
      { w with callStatus := "ICE connection failed", isCallActive := false
               outbox := w.outbox ++ [OutMsg.ended p.isVideo p.admin] }
    | .another _ => w

/-- The inbound `call-ended` (`videoCh = false`) and `video-call-ended`
(`videoCh = true`) handlers (App.tsx lines 334-364): close the peer
connection, stop the local tracks, detach remote audio, mark the call
inactive and schedule the status reset.  Nothing is emitted. -/
def stepEnded (w : World) (videoCh : Bool) : World :=
  let w := { w with pcs := closeId w.pcRef w.pcs, pcRef := none }
  let w := { w with
    streams := stopId w.localStreamRef w.streams
    localStreamRef := none }
  { w with
    remoteSrc := false
    callStatus := (if videoCh then "Video" else "Audio") ++ " call ended"
    isCallActive := false
    pendingReset := true }

/-- `pc.ontrack` (App.tsx lines 181-198): remote audio is attached for
playback only during an audio call. -/
def stepTrack (w : World) (kindAudio : Bool) : World :=
  match getPc w with
  | none => w
  | some p =>
    if kindAudio && !p.isVideo then { w with remoteSrc := true } else w

/-- The socket `disconnect` handler (App.tsx lines 366-370). -/
def stepDrop (w : World) : World :=
  { w with callStatus := "Disconnected", isCallActive := false }

/-- The 3-second `setTimeout` of the call-ended handlers firing. -/
def stepTick (w : World) : World :=
  if w.pendingReset then
    { w with callStatus := "Waiting for call...", pendingReset := false }
  else w

def step (w : World) : Ev → World
  | .incomingCall a v ok en em => stepIncomingCall w a v ok en em
  | .signalMsg ch s d => stepSignal w ch s d
  | .connChange s => stepConn w s
  | .iceChange s => stepIce w s
  | .endedMsg ch => stepEnded w ch
  | .trackEv k => stepTrack w k
  | .socketDrop => stepDrop w
  | .graceTick => stepTick w

def run (w : World) : List Ev → World
  | [] => w
  | e :: es => run (step w e) es

/-- The state after mount: `init()` has acquired the startup microphone
stream (stream 0) and the socket handlers are registered; no call yet. -/
def initWorld : World :=
  { nextId := 1
    streams := [⟨0, false⟩]
    pcs := []
    pcRef := none
    localStreamRef := some 0
    remoteSrc := false
    callStatus := "Waiting for call..."
    isCallActive := false
    pendingReset := false
    acquireCount := 1
    outbox := [] }

/-- Streams whose tracks have not all been stopped. -/
def liveStreams (w : World) : List StreamE :=
  w.streams.filter fun e => !e.stopped

/-- Peer connections not yet closed. -/
def livePcs (w : World) : List PcE :=
  w.pcs.filter fun p => !p.closed

/-- Structural invariant of the event loop: every unreleased resource is
the one currently referenced, ledger ids are distinct, and ids are below
the allocation counter. -/
def WInv (w : World) : Prop :=
  (∀ e ∈ w.streams, e.stopped = false → some e.id = w.localStreamRef) ∧
  (∀ p ∈ w.pcs, p.closed = false → some p.id = w.pcRef) ∧
  (∀ e ∈ w.streams, e.id < w.nextId) ∧
  (∀ p ∈ w.pcs, p.id < w.nextId) ∧
  (w.streams.map StreamE.id).Nodup ∧
  (w.pcs.map PcE.id).Nodup ∧
  w.localStreamRef.all (fun k => k < w.nextId) = true ∧
  w.pcRef.all (fun k => k < w.nextId) = true

instance (w : World) : Decidable (WInv w) := by
  unfold WInv; infer_instance

/-- Is an outbound message a `call-ended`/`video-call-ended` notification? -/
def isEndedMsg : OutMsg → Bool
  | .ended _ _ => true
  | _ => false

/-- Number of call-ended notifications in an emission trace. -/
def endedCount (l : List OutMsg) : Nat := (l.filter isEndedMsg).length

/-! ### The interleaving-aware model of `handleIncomingCall`

`handleIncomingCall` is an async function invoked fire-and-forget from the
`incoming-call` / `incoming-video-call` listeners; it suspends at
`await getUserMedia` (App.tsx line 129) between stopping the old stream
(line 104) and installing the new one (line 130).  The atomic `step`/`run`
above models the serialized executions, in which each acquisition settles
before the next inbound event is processed.  The model below splits the
call initiation at the `await` into an `arrive` phase and a `resolve`
continuation, so that overlapping invocations are representable.  The
remaining handlers acquire and release no resources across any `await`
(the signal handlers only update fields of the current peer connection;
the ended handlers are synchronous), so running them atomically hides no
resource-relevant interleaving. -/

/-- One outstanding `getUserMedia` call: the continuation of a
`handleIncomingCall` invocation suspended at the `await` of App.tsx line
129, with the values its closure captured. -/
structure PendingAcq where
  admin : String
  isVideo : Bool
deriving DecidableEq, Repr

/-- Base world plus the outstanding `getUserMedia` continuations, in
invocation order. -/
structure WorldA where
  w : World
  pending : List PendingAcq
deriving DecidableEq, Repr

/-- The synchronous prefix of `handleIncomingCall` (App.tsx lines 100-105):
set status, mark the call active, stop the held stream's tracks, clear the
ref, then start `getUserMedia` and suspend. -/
def stepArrive (a : WorldA) (admin : String) (isVideo : Bool) : WorldA :=
  let w := a.w
  let w := { w with
    callStatus := "Incoming " ++ (if isVideo then "video" else "audio") ++
      " call - Setting up connection..."
    isCallActive := true }
  let w := { w with
    streams := stopId w.localStreamRef w.streams
    localStreamRef := none }
  let w := { w with acquireCount := w.acquireCount + 1 }
  { w := w, pending := a.pending ++ [⟨admin, isVideo⟩] }

/-- The continuation of `handleIncomingCall` once its `getUserMedia`
settles (App.tsx lines 130-257 on success, 140-146 on failure).
JavaScript promises may settle in any order, so the event carries the
index `k` of the continuation that fires; the rest of the handler is
synchronous and runs to completion. -/
def stepResolve (a : WorldA) (k : Nat) (mediaOk : Bool)
    (errName errMsg : String) : WorldA :=
  match a.pending.get? k with
  | none => a
  | some pa =>
    let pending := a.pending.eraseIdx k
    let w := a.w
    if mediaOk then
      let sid := w.nextId
      let w := { w with
        nextId := w.nextId + 1
        streams := w.streams ++ [({ id := sid, stopped := false } : StreamE)]
        localStreamRef := some sid
        callStatus := (if pa.isVideo then "Camera and microphone" else "Microphone") ++
          " access granted" }
      let w := { w with pcs := closeId w.pcRef w.pcs, pcRef := none }
      let pid := w.nextId
      let w := { w with
        nextId := w.nextId + 1
        pcs := w.pcs ++ [({ id := pid, closed := false, isVideo := pa.isVideo, admin := pa.admin, remoteDescSet := false, added := [] } : PcE)]
        pcRef := some pid }
      let w := { w with outbox := w.outbox ++ [OutMsg.ready pa.isVideo pa.admin] }
      { w := { w with callStatus := "Ready - Waiting for " ++
          (if pa.isVideo then "video" else "audio") ++ " offer..." }
        pending := pending }
    else
      { w := { w with
          callStatus := "Media error: " ++ errName ++ " - " ++ errMsg
          isCallActive := false
          outbox := w.outbox ++ [OutMsg.ended pa.isVideo pa.admin] }
        pending := pending }

/-- Events of the interleaving-aware model: call initiation is split at
the `await`; all other handlers as in `Ev`. -/
inductive EvA
  | arrive (admin : String) (isVideo : Bool)
  | resolve (k : Nat) (mediaOk : Bool) (errName errMsg : String)
  | signalMsg (videoCh : Bool) (src : String) (data : SigData)
  | connChange (s : ConnS)
  | iceChange (s : IceS)
  | endedMsg (videoCh : Bool)
  | trackEv (kindAudio : Bool)
  | socketDrop
  | graceTick
deriving DecidableEq, Repr

def stepA (a : WorldA) : EvA → WorldA
  | .arrive admin isVideo => stepArrive a admin isVideo
  | .resolve k ok en em => stepResolve a k ok en em
  | .signalMsg ch s d => { a with w := stepSignal a.w ch s d }
  | .connChange s => { a with w := stepConn a.w s }
  | .iceChange s => { a with w := stepIce a.w s }
  | .endedMsg ch => { a with w := stepEnded a.w ch }
  | .trackEv k => { a with w := stepTrack a.w k }
  | .socketDrop => { a with w := stepDrop a.w }
  | .graceTick => { a with w := stepTick a.w }

def runA (a : WorldA) : List EvA → WorldA
  | [] => a
  | e :: es => runA (stepA a e) es

def initWorldA : WorldA := { w := initWorld, pending := [] }

/-- The peer-connection half of the structural invariant: every unclosed
connection is the referenced one, ledger ids are distinct and below the
allocation counter.  Unlike the stream half, this one survives every
interleaving, because closing the old connection and installing the new
one happen synchronously inside the continuation. -/
def WInvP (w : World) : Prop :=
  (∀ p ∈ w.pcs, p.closed = false → some p.id = w.pcRef) ∧
  (∀ p ∈ w.pcs, p.id < w.nextId) ∧
  (w.pcs.map PcE.id).Nodup ∧
  w.pcRef.all (fun k => k < w.nextId) = true

instance (w : World) : Decidable (WInvP w) := by
  unfold WInvP; infer_instance

/-! ### Helper lemmas about the ledgers -/

theorem stopId_ids (r : Option Nat) (l : List StreamE) :
    (stopId r l).map StreamE.id = l.map StreamE.id := by
  induction l with
  | nil => rfl
  | cons e t ih =>
    simp only [stopId, List.map_cons] at ih ⊢
    by_cases h : some e.id = r <;> simp [h, ih]

theorem closeId_ids (r : Option Nat) (l : List PcE) :
    (closeId r l).map PcE.id = l.map PcE.id := by
  induction l with
  | nil => rfl
  | cons e t ih =>
    simp only [closeId, List.map_cons] at ih ⊢
    by_cases h : some e.id = r <;> simp [h, ih]

theorem stopId_all_stopped (r : Option Nat) (l : List StreamE)
    (h : ∀ e ∈ l, e.stopped = false → some e.id = r) :
    ∀ e ∈ stopId r l, e.stopped = true := by
  intro e he
  simp only [stopId, List.mem_map] at he
  obtain ⟨e₀, he₀, rfl⟩ := he
  by_cases hr : some e₀.id = r
  · simp [hr]
  · simp only [hr, if_false]
    cases hst : e₀.stopped with
    | true => rfl
    | false => exact absurd (h e₀ he₀ hst) hr

theorem closeId_all_closed (r : Option Nat) (l : List PcE)
    (h : ∀ p ∈ l, p.closed = false → some p.id = r) :
    ∀ p ∈ closeId r l, p.closed = true := by
  intro p hp
  simp only [closeId, List.mem_map] at hp
  obtain ⟨p₀, hp₀, rfl⟩ := hp
  by_cases hr : some p₀.id = r
  · simp [hr]
  · simp only [hr, if_false]
    cases hst : p₀.closed with
    | true => rfl
    | false => exact absurd (h p₀ hp₀ hst) hr

theorem mem_stopId_id {r : Option Nat} {l : List StreamE} {e : StreamE}
    (he : e ∈ stopId r l) : e.id ∈ l.map StreamE.id := by
  have : e.id ∈ (stopId r l).map StreamE.id := List.mem_map_of_mem _ he
  rwa [stopId_ids] at this

theorem mem_closeId_id {r : Option Nat} {l : List PcE} {p : PcE}
    (hp : p ∈ closeId r l) : p.id ∈ l.map PcE.id := by
  have : p.id ∈ (closeId r l).map PcE.id := List.mem_map_of_mem _ hp
  rwa [closeId_ids] at this

theorem nodup_append_single {l : List Nat} {a : Nat} (h : l.Nodup) (ha : a ∉ l) :
    (l ++ [a]).Nodup := by
  induction l with
  | nil => simp
  | cons b t ih =>
    rcases List.nodup_cons.mp h with ⟨hb, ht⟩
    refine List.nodup_cons.mpr ⟨?_, ih ht (fun hx => ha (List.mem_cons_of_mem _ hx))⟩
    intro hmem
    rcases List.mem_append.mp hmem with h1 | h2
    · exact hb h1
    · simp only [List.mem_singleton] at h2
      exact ha (h2 ▸ List.mem_cons_self _ _)

/-- If all ledger ids are below `n`, then `n` is not among them. -/
theorem fresh_not_mem {ids : List Nat} {n : Nat} (h : ∀ i ∈ ids, i < n) :
    n ∉ ids := fun hmem => Nat.lt_irrefl n (h n hmem)

/-- A filter over a `Nodup`-id ledger in which every hit has the referenced
id has at most one element. -/
theorem filter_ref_len_le_one {α : Type} (f : α → Nat) (p : α → Bool)
    (r : Option Nat) :
    ∀ l : List α, (l.map f).Nodup → (∀ x ∈ l, p x = true → some (f x) = r) →
      (l.filter p).length ≤ 1 := by
  intro l
  induction l with
  | nil => intro _ _; simp
  | cons x t ih =>
    intro hnd hall
    rw [List.map_cons] at hnd
    rcases List.nodup_cons.mp hnd with ⟨hx, ht⟩
    by_cases hp : p x = true
    · have hfx : some (f x) = r := hall x (List.mem_cons_self _ _) hp
      have hempty : t.filter p = [] := by
        rw [List.filter_eq_nil_iff]
        intro y hy hpy
        have hfy : some (f y) = r := hall y (List.mem_cons_of_mem _ hy) hpy
        have hfeq : f y = f x := by
          have := hfx.trans hfy.symm
          exact (Option.some_injective _ this).symm
        exact hx (hfeq ▸ List.mem_map_of_mem f hy)
      simp [List.filter_cons, hp, hempty]
    · have hp' : p x = false := by simpa using hp
      simp only [List.filter_cons, hp']
      exact ih ht (fun y hy hpy => hall y (List.mem_cons_of_mem _ hy) hpy)

/-- `WInv` only depends on the resource ledgers, the refs and the counter. -/
theorem winv_of_fields_eq {w w' : World}
    (hs : w'.streams = w.streams) (hp : w'.pcs = w.pcs)
    (hr : w'.pcRef = w.pcRef) (hl : w'.localStreamRef = w.localStreamRef)
    (hn : w'.nextId = w.nextId) (h : WInv w) : WInv w' := by
  unfold WInv at h ⊢
  rw [hs, hp, hr, hl, hn]
  exact h

theorem winv_setPc {w : World} (f : PcE → PcE)
    (hid : ∀ q, (f q).id = q.id) (hcl : ∀ q, (f q).closed = q.closed)
    (h : WInv w) : WInv (setPc w f) := by
  cases hrf : w.pcRef with
  | none => simpa [setPc, hrf] using h
  | some i =>
    have hw : setPc w f =
        { w with pcs := w.pcs.map fun p => if p.id = i then f p else p } := by
      simp [setPc, hrf]
    rw [hw]
    obtain ⟨h1, h2, h3, h4, h5, h6, h7, h8⟩ := h
    have hids : (w.pcs.map fun q => if q.id = i then f q else q).map PcE.id =
        w.pcs.map PcE.id := by
      induction w.pcs with
      | nil => rfl
      | cons q t ih =>
        simp only [List.map_cons, ih]
        by_cases hq : q.id = i <;> simp [hq, hid]
    refine ⟨h1, ?_, h3, ?_, h5, ?_, h7, h8⟩
    · intro p hp hcl'
      simp only [List.mem_map] at hp
      obtain ⟨q, hq, rfl⟩ := hp
      by_cases hqi : q.id = i
      · simp only [hqi, if_true] at hcl' ⊢
        rw [hcl q] at hcl'
        rw [hid q]
        exact h2 q hq hcl'
      · simp only [hqi, if_false] at hcl' ⊢
        exact h2 q hq hcl'
    · intro p hp
      simp only [List.mem_map] at hp
      obtain ⟨q, hq, rfl⟩ := hp
      by_cases hqi : q.id = i
      · simp only [hqi, if_true]; rw [hid q]; exact h4 q hq
      · simp only [hqi, if_false]; exact h4 q hq
    · show ((w.pcs.map fun q => if q.id = i then f q else q).map PcE.id).Nodup
      rw [hids]
      exact h6

/-- Every handler of the event loop preserves the structural invariant. -/
theorem winv_step (w : World) (e : Ev) (h : WInv w) : WInv (step w e) := by
  cases e with
  | incomingCall a v ok en em =>
    obtain ⟨h1, h2, h3, h4, h5, h6, h7, h8⟩ := h
    show WInv (stepIncomingCall w a v ok en em)
    cases ok with
    | false =>
      refine ⟨?_, h2, ?_, h4, ?_, h6, rfl, h8⟩
      · intro e he hst
        have := stopId_all_stopped w.localStreamRef w.streams h1 e he
        rw [this] at hst
        cases hst
      · intro e he
        have hmem := mem_stopId_id he
        simp only [List.mem_map] at hmem
        obtain ⟨e₀, he₀, hid⟩ := hmem
        exact hid ▸ h3 e₀ he₀
      · show ((stopId w.localStreamRef w.streams).map StreamE.id).Nodup
        rw [stopId_ids]
        exact h5
    | true =>
      have hred : stepIncomingCall w a v true en em =
          { nextId := w.nextId + 1 + 1
            streams := stopId w.localStreamRef w.streams ++
              [({ id := w.nextId, stopped := false } : StreamE)]
            pcs := closeId w.pcRef w.pcs ++
              [({ id := w.nextId + 1, closed := false, isVideo := v, admin := a,
                  remoteDescSet := false, added := [] } : PcE)]
            pcRef := some (w.nextId + 1)
            localStreamRef := some w.nextId
            remoteSrc := w.remoteSrc
            callStatus := "Ready - Waiting for " ++
              (if v then "video" else "audio") ++ " offer..."
            isCallActive := true
            pendingReset := w.pendingReset
            acquireCount := w.acquireCount + 1
            outbox := w.outbox ++ [OutMsg.ready v a] } := rfl
      rw [hred]
      refine ⟨?_, ?_, ?_, ?_, ?_, ?_, ?_, ?_⟩
      · intro e he hst
        rcases List.mem_append.mp he with hl | hr
        · have := stopId_all_stopped w.localStreamRef w.streams h1 e hl
          rw [this] at hst
          cases hst
        · simp only [List.mem_singleton] at hr
          rw [hr]
      · intro p hp hcl
        rcases List.mem_append.mp hp with hl | hr
        · have := closeId_all_closed w.pcRef w.pcs h2 p hl
          rw [this] at hcl
          cases hcl
        · simp only [List.mem_singleton] at hr
          rw [hr]
      · intro e he
        rcases List.mem_append.mp he with hl | hr
        · have hmem := mem_stopId_id hl
          simp only [List.mem_map] at hmem
          obtain ⟨e₀, he₀, hid⟩ := hmem
          have := h3 e₀ he₀
          show e.id < w.nextId + 1 + 1
          omega
        · simp only [List.mem_singleton] at hr
          rw [hr]
          show w.nextId < w.nextId + 1 + 1
          omega
      · intro p hp
        rcases List.mem_append.mp hp with hl | hr
        · have hmem := mem_closeId_id hl
          simp only [List.mem_map] at hmem
          obtain ⟨p₀, hp₀, hid⟩ := hmem
          have := h4 p₀ hp₀
          show p.id < w.nextId + 1 + 1
          omega
        · simp only [List.mem_singleton] at hr
          rw [hr]
          show w.nextId + 1 < w.nextId + 1 + 1
          omega
      · show ((stopId w.localStreamRef w.streams ++
            [({ id := w.nextId, stopped := false } : StreamE)]).map StreamE.id).Nodup
        rw [List.map_append, stopId_ids]
        exact nodup_append_single h5
          (fresh_not_mem (by
            intro i hi
            simp only [List.mem_map] at hi
            obtain ⟨e₀, he₀, hid⟩ := hi
            exact hid ▸ h3 e₀ he₀))
      · show ((closeId w.pcRef w.pcs ++
            [({ id := w.nextId + 1, closed := false, isVideo := v, admin := a,
                remoteDescSet := false, added := [] } : PcE)]).map PcE.id).Nodup
        rw [List.map_append, closeId_ids]
        exact nodup_append_single h6
          (fresh_not_mem (by
            intro i hi
            simp only [List.mem_map] at hi
            obtain ⟨p₀, hp₀, hid⟩ := hi
            have := h4 p₀ hp₀
            show i < w.nextId + 1
            omega))
      · show decide (w.nextId < w.nextId + 1 + 1) = true
        simp only [decide_eq_true_eq]
        omega
      · show decide (w.nextId + 1 < w.nextId + 1 + 1) = true
        simp only [decide_eq_true_eq]
        omega
  | signalMsg ch srcName d =>
    show WInv (stepSignal w ch srcName d)
    unfold stepSignal
    split
    · exact h
    · split
      · refine winv_of_fields_eq
          (w := setPc w fun q => { q with remoteDescSet := true })
          rfl rfl rfl rfl rfl ?_
        exact winv_setPc _ (fun q => rfl) (fun q => rfl) h
      · split
        · split
          · exact winv_setPc _ (fun q => rfl) (fun q => rfl) h
          · exact h
        · exact h
      · exact h
  | connChange s =>
    show WInv (stepConn w s)
    unfold stepConn
    split
    · exact h
    · split <;> exact winv_of_fields_eq rfl rfl rfl rfl rfl h
  | iceChange s =>
    show WInv (stepIce w s)
    unfold stepIce
    split
    · exact h
    · split <;> exact winv_of_fields_eq rfl rfl rfl rfl rfl h
  | endedMsg ch =>
    obtain ⟨h1, h2, h3, h4, h5, h6, h7, h8⟩ := h
    show WInv (stepEnded w ch)
    refine ⟨?_, ?_, ?_, ?_, ?_, ?_, rfl, rfl⟩
    · intro e he hst
      have := stopId_all_stopped w.localStreamRef w.streams h1 e he
      rw [this] at hst
      cases hst
    · intro p hp hcl
      have := closeId_all_closed w.pcRef w.pcs h2 p hp
      rw [this] at hcl
      cases hcl
    · intro e he
      have hmem := mem_stopId_id he
      simp only [List.mem_map] at hmem
      obtain ⟨e₀, he₀, hid⟩ := hmem
      exact hid ▸ h3 e₀ he₀
    · intro p hp
      have hmem := mem_closeId_id hp
      simp only [List.mem_map] at hmem
      obtain ⟨p₀, hp₀, hid⟩ := hmem
      exact hid ▸ h4 p₀ hp₀
    · show ((stopId w.localStreamRef w.streams).map StreamE.id).Nodup
      rw [stopId_ids]
      exact h5
    · show ((closeId w.pcRef w.pcs).map PcE.id).Nodup
      rw [closeId_ids]
      exact h6
  | trackEv k =>
    show WInv (stepTrack w k)
    unfold stepTrack
    split
    · exact h
    · split
      · exact winv_of_fields_eq rfl rfl rfl rfl rfl h
      · exact h
  | socketDrop => exact winv_of_fields_eq rfl rfl rfl rfl rfl h
  | graceTick =>
    show WInv (stepTick w)
    unfold stepTick
    split
    · exact winv_of_fields_eq rfl rfl rfl rfl rfl h
    · exact h

/-- The invariant holds in every reachable state. -/
theorem winv_run (evs : List Ev) : ∀ w : World, WInv w → WInv (run w evs) := by
  induction evs with
  | nil => intro w h; exact h
  | cons e es ih => intro w h; exact ih (step w e) (winv_step w e h)

/-- `find?` by id commutes with an id-preserving pointwise update. -/
theorem find_map_presId (i : Nat) (f : PcE → PcE) (hf : ∀ q, (f q).id = q.id)
    (l : List PcE) :
    (l.map fun q => if q.id = i then f q else q).find? (fun q => q.id == i) =
      (l.find? fun q => q.id == i).map fun q => if q.id = i then f q else q := by
  induction l with
  | nil => rfl
  | cons q t ih =>
    by_cases hq : q.id = i
    · have h1 : (((if q.id = i then f q else q).id == i)) = true := by
        simp [hq, hf]
      have h2 : ((q.id == i)) = true := by simp [hq]
      rw [List.map_cons,
        @List.find?_cons_of_pos _ (fun q => q.id == i)
          (if q.id = i then f q else q) _ h1,
        @List.find?_cons_of_pos _ (fun q => q.id == i) q _ h2]
      rfl
    · have h1 : (((if q.id = i then f q else q).id == i)) = false := by
        simp [hq, hf]
      have h2 : ((q.id == i)) = false := by simp [hq]
      rw [List.map_cons,
        @List.find?_cons_of_neg _ (fun q => q.id == i)
          (if q.id = i then f q else q) _ (by simp [h1]),
        @List.find?_cons_of_neg _ (fun q => q.id == i) q _ (by simp [h2]), ih]

/-! ### Claims -/

theorem winvP_of_fields_eq {w w' : World} (hp : w'.pcs = w.pcs)
    (hr : w'.pcRef = w.pcRef) (hn : w'.nextId = w.nextId)
    (h : WInvP w) : WInvP w' := by
  unfold WInvP at h ⊢
  rw [hp, hr, hn]
  exact h

theorem winvP_setPc {w : World} (f : PcE → PcE)
    (hid : ∀ q, (f q).id = q.id) (hcl : ∀ q, (f q).closed = q.closed)
    (h : WInvP w) : WInvP (setPc w f) := by
  cases hrf : w.pcRef with
  | none => simpa [setPc, hrf] using h
  | some i =>
    have hw : setPc w f =
        { w with pcs := w.pcs.map fun p => if p.id = i then f p else p } := by
      simp [setPc, hrf]
    rw [hw]
    obtain ⟨h2, h4, h6, h8⟩ := h
    have hids : (w.pcs.map fun q => if q.id = i then f q else q).map PcE.id =
        w.pcs.map PcE.id := by
      induction w.pcs with
      | nil => rfl
      | cons q t ih =>
        simp only [List.map_cons, ih]
        by_cases hq : q.id = i <;> simp [hq, hid]
    refine ⟨?_, ?_, ?_, h8⟩
    · intro p hp hcl'
      simp only [List.mem_map] at hp
      obtain ⟨q, hq, rfl⟩ := hp
      by_cases hqi : q.id = i
      · simp only [hqi, if_true] at hcl' ⊢
        rw [hcl q] at hcl'
        rw [hid q]
        exact h2 q hq hcl'
      · simp only [hqi, if_false] at hcl' ⊢
        exact h2 q hq hcl'
    · intro p hp
      simp only [List.mem_map] at hp
      obtain ⟨q, hq, rfl⟩ := hp
      by_cases hqi : q.id = i
      · simp only [hqi, if_true]; rw [hid q]; exact h4 q hq
      · simp only [hqi, if_false]; exact h4 q hq
    · show ((w.pcs.map fun q => if q.id = i then f q else q).map PcE.id).Nodup
      rw [hids]
      exact h6

theorem winvP_stepEnded (w : World) (ch : Bool) (h : WInvP w) :
    WInvP (stepEnded w ch) := by
  obtain ⟨h2, h4, h6, h8⟩ := h
  refine ⟨?_, ?_, ?_, rfl⟩
  · intro p hp hcl
    have := closeId_all_closed w.pcRef w.pcs h2 p hp
    rw [this] at hcl
    cases hcl
  · intro p hp
    have hmem := mem_closeId_id hp
    simp only [List.mem_map] at hmem
    obtain ⟨p₀, hp₀, hid⟩ := hmem
    exact hid ▸ h4 p₀ hp₀
  · show ((closeId w.pcRef w.pcs).map PcE.id).Nodup
    rw [closeId_ids]
    exact h6

/-- Every handler of the interleaving-aware model preserves the
peer-connection half of the invariant: even with overlapping call
initiations, close-old-then-create-new runs synchronously inside the
continuation. -/
theorem winvP_stepA (a : WorldA) (e : EvA) (h : WInvP a.w) :
    WInvP (stepA a e).w := by
  cases e with
  | arrive admin isVideo => exact winvP_of_fields_eq rfl rfl rfl h
  | resolve k ok en em =>
    show WInvP (stepResolve a k ok en em).w
    cases hg : a.pending.get? k with
    | none =>
      have hred : stepResolve a k ok en em = a := by
        unfold stepResolve
        rw [hg]
      rw [hred]
      exact h
    | some pa =>
      obtain ⟨h2, h4, h6, h8⟩ := h
      cases ok with
      | false =>
        have hred : stepResolve a k false en em =
            { w := { a.w with
                callStatus := "Media error: " ++ en ++ " - " ++ em
                isCallActive := false
                outbox := a.w.outbox ++ [OutMsg.ended pa.isVideo pa.admin] }
              pending := a.pending.eraseIdx k } := by
          unfold stepResolve
          rw [hg]
          exact rfl
        rw [hred]
        exact ⟨h2, h4, h6, h8⟩
      | true =>
        have hred : stepResolve a k true en em =
            { w := { nextId := a.w.nextId + 1 + 1
                     streams := a.w.streams ++
                       [({ id := a.w.nextId, stopped := false } : StreamE)]
                     pcs := closeId a.w.pcRef a.w.pcs ++
                       [({ id := a.w.nextId + 1, closed := false, isVideo := pa.isVideo, admin := pa.admin, remoteDescSet := false, added := [] } : PcE)]
                     pcRef := some (a.w.nextId + 1)
                     localStreamRef := some a.w.nextId
                     remoteSrc := a.w.remoteSrc
                     callStatus := "Ready - Waiting for " ++
                       (if pa.isVideo then "video" else "audio") ++ " offer..."
                     isCallActive := a.w.isCallActive
                     pendingReset := a.w.pendingReset
                     acquireCount := a.w.acquireCount
                     outbox := a.w.outbox ++ [OutMsg.ready pa.isVideo pa.admin] }
              pending := a.pending.eraseIdx k } := by
          unfold stepResolve
          rw [hg]
          exact rfl
        rw [hred]
        refine ⟨?_, ?_, ?_, ?_⟩
        · intro p hp hcl
          rcases List.mem_append.mp hp with hl | hrr
          · have := closeId_all_closed a.w.pcRef a.w.pcs h2 p hl
            rw [this] at hcl
            cases hcl
          · simp only [List.mem_singleton] at hrr
            rw [hrr]
        · intro p hp
          rcases List.mem_append.mp hp with hl | hrr
          · have hmem := mem_closeId_id hl
            simp only [List.mem_map] at hmem
            obtain ⟨p₀, hp₀, hid⟩ := hmem
            have := h4 p₀ hp₀
            show p.id < a.w.nextId + 1 + 1
            omega
          · simp only [List.mem_singleton] at hrr
            rw [hrr]
            show a.w.nextId + 1 < a.w.nextId + 1 + 1
            omega
        · show ((closeId a.w.pcRef a.w.pcs ++
              [({ id := a.w.nextId + 1, closed := false, isVideo := pa.isVideo, admin := pa.admin, remoteDescSet := false, added := [] } : PcE)]).map PcE.id).Nodup
          rw [List.map_append, closeId_ids]
          exact nodup_append_single h6
            (fresh_not_mem (by
              intro i hi
              simp only [List.mem_map] at hi
              obtain ⟨p₀, hp₀, hid⟩ := hi
              have := h4 p₀ hp₀
              show i < a.w.nextId + 1
              omega))
        · show decide (a.w.nextId + 1 < a.w.nextId + 1 + 1) = true
          simp only [decide_eq_true_eq]
          omega
  | signalMsg ch srcName d =>
    show WInvP (stepSignal a.w ch srcName d)
    unfold stepSignal
    split
    · exact h
    · split
      · refine winvP_of_fields_eq
          (w := setPc a.w fun q => { q with remoteDescSet := true })
          rfl rfl rfl ?_
        exact winvP_setPc _ (fun q => rfl) (fun q => rfl) h
      · split
        · split
          · exact winvP_setPc _ (fun q => rfl) (fun q => rfl) h
          · exact h
        · exact h
      · exact h
  | connChange st =>
    show WInvP (stepConn a.w st)
    unfold stepConn
    split
    · exact h
    · split <;> exact winvP_of_fields_eq rfl rfl rfl h
  | iceChange st =>
    show WInvP (stepIce a.w st)
    unfold stepIce
    split
    · exact h
    · split <;> exact winvP_of_fields_eq rfl rfl rfl h
  | endedMsg ch => exact winvP_stepEnded a.w ch h
  | trackEv k =>
    show WInvP (stepTrack a.w k)
    unfold stepTrack
    split
    · exact h
    · split
      · exact winvP_of_fields_eq rfl rfl rfl h
      · exact h
  | socketDrop => exact winvP_of_fields_eq rfl rfl rfl h
  | graceTick =>
    show WInvP (stepTick a.w)
    unfold stepTick
    split
    · exact winvP_of_fields_eq rfl rfl rfl h
    · exact h

theorem winvP_runA (evs : List EvA) : ∀ a : WorldA, WInvP a.w →
    WInvP (runA a evs).w := by
  induction evs with
  | nil => intro a h; exact h
  | cons e es ih => intro a h; exact ih (stepA a e) (winvP_stepA a e h)

/-- C3 counterexample: two `incoming-call` deliveries that overlap at the
`getUserMedia` suspension point (both arrive before either acquisition
settles), then both continuations.  Each continuation overwrites
`localStreamRef`, so the earlier continuation's stream is orphaned with
its tracks still running: TWO non-released media streams coexist,
refuting the claim on the program's actual (asynchronous) execution. -/
theorem c3_counterexample :
    (liveStreams (runA initWorldA
      [.arrive "X" false, .arrive "Y" false,
       .resolve 0 true "" "", .resolve 0 true "" ""]).w).length = 2 := by
  decide

/-- C3 (amended): the peer-connection half holds for every interleaving of
the asynchronous call-initiation handler — at most one unclosed peer
connection ever exists, because closing the old connection and installing
the new one happen synchronously inside the continuation; and in the
serialized executions, where each `getUserMedia` settles before the next
inbound event is processed (the atomic step function models exactly
these), at most one unstopped stream and at most one unclosed peer
connection exist.  The stream half fails for overlapping initiations. -/
theorem c3_amended_single_pc_streams_serialized :
    (∀ evsA : List EvA, (livePcs (runA initWorldA evsA).w).length ≤ 1) ∧
    (∀ evs : List Ev,
      (liveStreams (run initWorld evs)).length ≤ 1 ∧
      (livePcs (run initWorld evs)).length ≤ 1) := by
  constructor
  · intro evsA
    have hP : WInvP (runA initWorldA evsA).w :=
      winvP_runA evsA initWorldA (by decide)
    obtain ⟨h2, _, h6, _⟩ := hP
    exact filter_ref_len_le_one PcE.id (fun p => !p.closed)
      (runA initWorldA evsA).w.pcRef _ h6
      (fun p hp hcl => h2 p hp (by simpa using hcl))
  · intro evs
    have hInv : WInv (run initWorld evs) := winv_run evs initWorld (by decide)
    obtain ⟨h1, h2, _, _, h5, h6, _, _⟩ := hInv
    constructor
    · exact filter_ref_len_le_one StreamE.id (fun e => !e.stopped)
        (run initWorld evs).localStreamRef _ h5
        (fun e he hp => h1 e he (by simpa using hp))
    · exact filter_ref_len_le_one PcE.id (fun p => !p.closed)
        (run initWorld evs).pcRef _ h6
        (fun p hp hcl => h2 p hp (by simpa using hcl))

/-- C5: when media acquisition fails for an incoming call, the attempt is
terminal: the call is marked inactive with a media-error status, exactly
one call-ended notification goes out on the matching channel to the
calling admin, acquisition happened exactly once (no retry), and no new
peer connection was created. -/
theorem c5_media_failure_terminal (w : World) (admin : String)
    (isVideo : Bool) (en em : String) :
    (step w (.incomingCall admin isVideo false en em)).isCallActive = false ∧
    (step w (.incomingCall admin isVideo false en em)).callStatus =
      "Media error: " ++ en ++ " - " ++ em ∧
    (step w (.incomingCall admin isVideo false en em)).outbox =
      w.outbox ++ [OutMsg.ended isVideo admin] ∧
    (step w (.incomingCall admin isVideo false en em)).acquireCount =
      w.acquireCount + 1 ∧
    (step w (.incomingCall admin isVideo false en em)).pcs = w.pcs :=
  ⟨rfl, rfl, rfl, rfl, rfl⟩

/-- C6: for `incoming-video-call`, then an inbound Offer on the video
channel, then `connectionState = connected`, the final status is
"Video and audio active" and the outbound trace is exactly one Ready
followed by exactly one Answer, both on the video channel. -/
theorem c6_video_call_happy_path (admin sdp : String) :
    (run initWorld [.incomingCall admin true true "" "",
        .signalMsg true admin (.offer sdp), .connChange .connected]).callStatus =
      "Video and audio active" ∧
    (run initWorld [.incomingCall admin true true "" "",
        .signalMsg true admin (.offer sdp), .connChange .connected]).outbox =
      [OutMsg.ready true admin, OutMsg.answer true admin] ∧
    (run initWorld [.incomingCall admin true true "" "",
        .signalMsg true admin (.offer sdp), .connChange .connected]).isCallActive =
      true :=
  ⟨rfl, rfl, rfl⟩

/-- C8: a Candidate signal arriving while the current peer connection has
no remote description set is dropped without any state change at all — in
particular it is not queued anywhere for later application and the
session is not aborted. -/
theorem c8_early_candidate_dropped (w : World) (videoCh : Bool) (src : String)
    (c : CandInput) (p : PcE) (hp : getPc w = some p)
    (hrd : p.remoteDescSet = false) :
    step w (.signalMsg videoCh src (.cand c)) = w := by
  show stepSignal w videoCh src (.cand c) = w
  cases hpc : parseIceCandidate c with
  | none => simp [stepSignal, hp, hpc]
  | some cc => simp [stepSignal, hp, hpc, hrd]

theorem c8_early_candidate_dropped_witness :
    getPc (run initWorld [.incomingCall "X" false true "" ""]) =
      some { id := 2, closed := false, isVideo := false, admin := "X",
             remoteDescSet := false, added := [] } ∧
    step (run initWorld [.incomingCall "X" false true "" ""])
        (.signalMsg false "X"
          (.cand (.line "candidate:1 1 udp 1 1.2.3.4 5 typ host"))) =
      run initWorld [.incomingCall "X" false true "" ""] :=
  ⟨by decide,
   c8_early_candidate_dropped _ false "X"
     (.line "candidate:1 1 udp 1 1.2.3.4 5 typ host")
     { id := 2, closed := false, isVideo := false, admin := "X",
       remoteDescSet := false, added := [] }
     (by decide) (by decide)⟩

/-- C9: an inbound `call-ended`/`video-call-ended` message, in any state,
tears the session down locally — the referenced peer connection is closed,
the referenced local stream's tracks are stopped, remote audio is
detached, both refs are cleared and the call is marked inactive — and
nothing is emitted back to the sender. -/
theorem c9_call_ended_teardown (w : World) (videoCh : Bool) :
    (step w (.endedMsg videoCh)).pcRef = none ∧
    (step w (.endedMsg videoCh)).localStreamRef = none ∧
    (step w (.endedMsg videoCh)).remoteSrc = false ∧
    (step w (.endedMsg videoCh)).isCallActive = false ∧
    (step w (.endedMsg videoCh)).outbox = w.outbox ∧
    (∀ e ∈ (step w (.endedMsg videoCh)).streams,
        some e.id = w.localStreamRef → e.stopped = true) ∧
    (∀ p ∈ (step w (.endedMsg videoCh)).pcs,
        some p.id = w.pcRef → p.closed = true) := by
  refine ⟨rfl, rfl, rfl, rfl, rfl, ?_, ?_⟩
  · intro e he hid
    have he' : e ∈ stopId w.localStreamRef w.streams := he
    simp only [stopId, List.mem_map] at he'
    obtain ⟨e₀, he₀, rfl⟩ := he'
    by_cases hr : some e₀.id = w.localStreamRef
    · simp [hr]
    · simp only [hr, if_false] at hid ⊢
  · intro p hp hid
    have hp' : p ∈ closeId w.pcRef w.pcs := hp
    simp only [closeId, List.mem_map] at hp'
    obtain ⟨p₀, hp₀, rfl⟩ := hp'
    by_cases hr : some p₀.id = w.pcRef
    · simp [hr]
    · simp only [hr, if_false] at hid ⊢

theorem c9_call_ended_teardown_witness :
    (step (run initWorld [.incomingCall "X" true true "" ""])
        (.endedMsg true)).pcRef = none ∧
    (step (run initWorld [.incomingCall "X" true true "" ""])
        (.endedMsg true)).localStreamRef = none ∧
    (step (run initWorld [.incomingCall "X" true true "" ""])
        (.endedMsg true)).remoteSrc = false ∧
    (step (run initWorld [.incomingCall "X" true true "" ""])
        (.endedMsg true)).isCallActive = false ∧
    (step (run initWorld [.incomingCall "X" true true "" ""])
        (.endedMsg true)).outbox =
      (run initWorld [.incomingCall "X" true true "" ""]).outbox ∧
    (∀ e ∈ (step (run initWorld [.incomingCall "X" true true "" ""])
        (.endedMsg true)).streams,
        some e.id = (run initWorld [.incomingCall "X" true true "" ""]).localStreamRef →
          e.stopped = true) ∧
    (∀ p ∈ (step (run initWorld [.incomingCall "X" true true "" ""])
        (.endedMsg true)).pcs,
        some p.id = (run initWorld [.incomingCall "X" true true "" ""]).pcRef →
          p.closed = true) :=
  c9_call_ended_teardown (run initWorld [.incomingCall "X" true true "" ""]) true

/-- C10: a successful inbound call-initiation of either type stops the
tracks of whatever stream was held and closes whatever peer connection
existed — regardless of which call type created them — and installs a
freshly created stream and peer connection. -/
theorem c10_incoming_call_tears_down_prior (w : World) (admin : String)
    (isVideo : Bool) (en em : String) (hInv : WInv w) :
    (∀ e ∈ (step w (.incomingCall admin isVideo true en em)).streams,
        some e.id = w.localStreamRef → e.stopped = true) ∧
    (∀ p ∈ (step w (.incomingCall admin isVideo true en em)).pcs,
        some p.id = w.pcRef → p.closed = true) ∧
    (step w (.incomingCall admin isVideo true en em)).localStreamRef =
      some w.nextId ∧
    (step w (.incomingCall admin isVideo true en em)).pcRef =
      some (w.nextId + 1) := by
  obtain ⟨h1, h2, h3, h4, h5, h6, h7, h8⟩ := hInv
  refine ⟨?_, ?_, rfl, rfl⟩
  · intro e he hid
    have he' : e ∈ stopId w.localStreamRef w.streams ++
        [({ id := w.nextId, stopped := false } : StreamE)] := he
    rcases List.mem_append.mp he' with hl | hrr
    · simp only [stopId, List.mem_map] at hl
      obtain ⟨e₀, he₀, rfl⟩ := hl
      by_cases hr : some e₀.id = w.localStreamRef
      · simp [hr]
      · simp only [hr, if_false] at hid ⊢
    · simp only [List.mem_singleton] at hrr
      rw [hrr] at hid
      rw [← hid] at h7
      simp at h7
  · intro p hp hid
    have hp' : p ∈ closeId w.pcRef w.pcs ++
        [({ id := w.nextId + 1, closed := false, isVideo := isVideo,
            admin := admin, remoteDescSet := false, added := [] } : PcE)] := hp
    rcases List.mem_append.mp hp' with hl | hrr
    · simp only [closeId, List.mem_map] at hl
      obtain ⟨p₀, hp₀, rfl⟩ := hl
      by_cases hr : some p₀.id = w.pcRef
      · simp [hr]
      · simp only [hr, if_false] at hid ⊢
    · simp only [List.mem_singleton] at hrr
      rw [hrr] at hid
      rw [← hid] at h8
      simp at h8

theorem c10_incoming_call_tears_down_prior_witness :
    WInv (run initWorld [.incomingCall "X" true true "" ""]) ∧
    ((∀ e ∈ (step (run initWorld [.incomingCall "X" true true "" ""])
        (.incomingCall "Y" false true "" "")).streams,
        some e.id = (run initWorld [.incomingCall "X" true true "" ""]).localStreamRef →
          e.stopped = true) ∧
    (∀ p ∈ (step (run initWorld [.incomingCall "X" true true "" ""])
        (.incomingCall "Y" false true "" "")).pcs,
        some p.id = (run initWorld [.incomingCall "X" true true "" ""]).pcRef →
          p.closed = true) ∧
    (step (run initWorld [.incomingCall "X" true true "" ""])
        (.incomingCall "Y" false true "" "")).localStreamRef =
      some (run initWorld [.incomingCall "X" true true "" ""]).nextId ∧
    (step (run initWorld [.incomingCall "X" true true "" ""])
        (.incomingCall "Y" false true "" "")).pcRef =
      some ((run initWorld [.incomingCall "X" true true "" ""]).nextId + 1)) :=
  ⟨by decide,
   c10_incoming_call_tears_down_prior
     (run initWorld [.incomingCall "X" true true "" ""]) "Y" false "" ""
     (by decide)⟩

/-- C1 counterexample: with an Audio session active (the current peer
connection was created by `incoming-call`, `isVideo = false`, and its
remote description is set), a Candidate signal delivered on the video
channel (`webrtc-video-signal`) IS handed to and applied on that audio
session's peer connection, because both channel handlers dereference the
single shared `pcRef`. -/
theorem c1_counterexample :
    (getPc (run initWorld [.incomingCall "X" false true "" "",
        .signalMsg false "X" (.offer "o1"),
        .signalMsg true "Y" (.cand (.structured
          { candidate := "candidate:1 1 udp 1 10.0.0.1 5000 typ host",
            sdpMid := some "0", sdpMLineIndex := some 0,
            usernameFragment := none }))])).map
      (fun p => (p.isVideo, p.added)) =
    some (false, [(true,
      { candidate := "candidate:1 1 udp 1 10.0.0.1 5000 typ host",
        sdpMid := some "0", sdpMLineIndex := some 0,
        usernameFragment := none })]) := by decide

/-- C1 (amended): both channel handlers operate on the single shared
current peer connection.  A Candidate arriving on either channel, once it
parses and the current peer connection has a remote description, is added
to that peer connection regardless of which call type created it — so a
video-channel Candidate during an active audio session lands on the audio
session's peer connection; one audio and one video session can never
coexist. -/
theorem c1_amended_candidate_crosses_channels (w : World) (videoCh : Bool)
    (src : String) (c : CandInput) (cc : RTCIceCandidateInit) (p : PcE)
    (hp : getPc w = some p) (hrd : p.remoteDescSet = true)
    (hparse : parseIceCandidate c = some cc) :
    getPc (step w (.signalMsg videoCh src (.cand c))) =
      some { p with added := p.added ++ [(videoCh, cc)] } := by
  obtain ⟨i, hi, hfind⟩ :
      ∃ i, w.pcRef = some i ∧ (w.pcs.find? fun q => q.id == i) = some p := by
    unfold getPc at hp
    cases hr : w.pcRef with
    | none => rw [hr] at hp; cases hp
    | some i => rw [hr] at hp; exact ⟨i, rfl, hp⟩
  have hpi : p.id = i := by
    have := List.find?_some hfind
    simpa using this
  have hstep : step w (.signalMsg videoCh src (.cand c)) =
      setPc w fun q => { q with added := q.added ++ [(videoCh, cc)] } := by
    show stepSignal w videoCh src (.cand c) = _
    simp [stepSignal, hp, hparse, hrd]
  rw [hstep]
  have hset : setPc w (fun q => { q with added := q.added ++ [(videoCh, cc)] }) =
      { w with pcs := w.pcs.map fun q =>
          if q.id = i then { q with added := q.added ++ [(videoCh, cc)] } else q } := by
    simp [setPc, hi]
  rw [hset]
  simp only [getPc, hi]
  rw [find_map_presId i
      (fun q => { q with added := q.added ++ [(videoCh, cc)] })
      (fun q => rfl) w.pcs, hfind]
  simp [hpi]

theorem c1_amended_candidate_crosses_channels_witness :
    getPc (run initWorld [.incomingCall "X" false true "" "",
        .signalMsg false "X" (.offer "o1")]) =
      some { id := 2, closed := false, isVideo := false, admin := "X",
             remoteDescSet := true, added := [] } ∧
    getPc (step (run initWorld [.incomingCall "X" false true "" "",
        .signalMsg false "X" (.offer "o1")])
        (.signalMsg true "Y" (.cand (.line
          "candidate:7 1 udp 99 10.0.0.9 4444 typ host ufrag zz")))) =
      some { id := 2, closed := false, isVideo := false, admin := "X",
             remoteDescSet := true,
             added := [(true,
               { candidate := "candidate:7 1 udp 99 10.0.0.9 4444 typ host ufrag zz",
                 sdpMid := some "0", sdpMLineIndex := some 0,
                 usernameFragment := some "zz" })] } :=
  ⟨by decide,
   c1_amended_candidate_crosses_channels _ true "Y"
     (.line "candidate:7 1 udp 99 10.0.0.9 4444 typ host ufrag zz")
     { candidate := "candidate:7 1 udp 99 10.0.0.9 4444 typ host ufrag zz",
       sdpMid := some "0", sdpMLineIndex := some 0,
       usernameFragment := some "zz" }
     { id := 2, closed := false, isVideo := false, admin := "X",
       remoteDescSet := true, added := [] }
     (by decide) (by decide) (by decide)⟩

/-- C2 counterexample: on the peer-connection-disconnected exit path the
call attempt ends (marked inactive, one call-ended notification emitted)
yet the peer connection is left unclosed and the captured stream's tracks
keep running — the handles are not released on this exit path. -/
theorem c2_counterexample :
    (run initWorld [.incomingCall "X" false true "" "",
        .signalMsg false "X" (.offer "o"), .connChange .connected,
        .connChange .disconnected]).isCallActive = false ∧
    endedCount (run initWorld [.incomingCall "X" false true "" "",
        .signalMsg false "X" (.offer "o"), .connChange .connected,
        .connChange .disconnected]).outbox = 1 ∧
    (livePcs (run initWorld [.incomingCall "X" false true "" "",
        .signalMsg false "X" (.offer "o"), .connChange .connected,
        .connChange .disconnected])).length = 1 ∧
    (liveStreams (run initWorld [.incomingCall "X" false true "" "",
        .signalMsg false "X" (.offer "o"), .connChange .connected,
        .connChange .disconnected])).length = 1 := by decide

/-- C2 (amended): the MediaHandle and PeerSessionHandle are released on
the inbound call-ended path (after which no stream is live and no peer
connection is open), but on the peer-connection-failure exit path the
handler only marks the call inactive and emits a call-ended notification:
the ledgers are untouched, so the stream and the peer connection stay
unreleased until a later incoming call, ended message, or unmount. -/
theorem c2_amended_release_only_on_ended_path :
    (∀ (w : World) (ch : Bool), WInv w →
      liveStreams (step w (.endedMsg ch)) = [] ∧
      livePcs (step w (.endedMsg ch)) = []) ∧
    (∀ (w : World) (p : PcE), getPc w = some p →
      (step w (.connChange .failed)).streams = w.streams ∧
      (step w (.connChange .failed)).pcs = w.pcs ∧
      (step w (.connChange .failed)).isCallActive = false ∧
      endedCount (step w (.connChange .failed)).outbox =
        endedCount w.outbox + 1) := by
  constructor
  · intro w ch hInv
    obtain ⟨h1, h2, _, _, _, _, _, _⟩ := hInv
    constructor
    · show (stopId w.localStreamRef w.streams).filter (fun e => !e.stopped) = []
      rw [List.filter_eq_nil_iff]
      intro e he
      have := stopId_all_stopped w.localStreamRef w.streams h1 e he
      simp [this]
    · show (closeId w.pcRef w.pcs).filter (fun p => !p.closed) = []
      rw [List.filter_eq_nil_iff]
      intro p hp
      have := closeId_all_closed w.pcRef w.pcs h2 p hp
      simp [this]
  · intro w p hp
    have hstep : step w (.connChange .failed) =
        { w with callStatus := "Connection failed", isCallActive := false
                 outbox := w.outbox ++ [OutMsg.ended p.isVideo p.admin] } := by
      show stepConn w .failed = _
      simp [stepConn, hp]
    rw [hstep]
    refine ⟨rfl, rfl, rfl, ?_⟩
    show endedCount (w.outbox ++ [OutMsg.ended p.isVideo p.admin]) = _
    simp [endedCount, List.filter_append, isEndedMsg]

theorem c2_amended_release_only_on_ended_path_witness :
    (WInv (run initWorld [.incomingCall "X" false true "" "",
        .signalMsg false "X" (.offer "o"), .connChange .connected]) ∧
      liveStreams (step (run initWorld [.incomingCall "X" false true "" "",
        .signalMsg false "X" (.offer "o"), .connChange .connected])
        (.endedMsg false)) = [] ∧
      livePcs (step (run initWorld [.incomingCall "X" false true "" "",
        .signalMsg false "X" (.offer "o"), .connChange .connected])
        (.endedMsg false)) = []) ∧
    (getPc (run initWorld [.incomingCall "Z" true true "" ""]) =
        some { id := 2, closed := false, isVideo := true, admin := "Z",
               remoteDescSet := false, added := [] } ∧
      (step (run initWorld [.incomingCall "Z" true true "" ""])
          (.connChange .failed)).streams =
        (run initWorld [.incomingCall "Z" true true "" ""]).streams ∧
      (step (run initWorld [.incomingCall "Z" true true "" ""])
          (.connChange .failed)).pcs =
        (run initWorld [.incomingCall "Z" true true "" ""]).pcs ∧
      (step (run initWorld [.incomingCall "Z" true true "" ""])
          (.connChange .failed)).isCallActive = false ∧
      endedCount (step (run initWorld [.incomingCall "Z" true true "" ""])
          (.connChange .failed)).outbox =
        endedCount (run initWorld [.incomingCall "Z" true true "" ""]).outbox + 1) :=
  ⟨⟨by decide, c2_amended_release_only_on_ended_path.1
      (run initWorld [.incomingCall "X" false true "" "",
        .signalMsg false "X" (.offer "o"), .connChange .connected]) false
      (by decide)⟩,
   ⟨by decide, c2_amended_release_only_on_ended_path.2
      (run initWorld [.incomingCall "Z" true true "" ""])
      { id := 2, closed := false, isVideo := true, admin := "Z",
        remoteDescSet := false, added := [] }
      (by decide)⟩⟩

/-- C7 counterexample: after a Connected session sees
`connectionState = failed`, exactly one call-ended notification has been
emitted (that part of the claim holds), but even after the grace timer
would have fired the status is "Connection failed", no status reset was
ever scheduled, and the peer connection is still open — the session does
not end in the Idle state the claim requires. -/
theorem c7_counterexample :
    endedCount (run initWorld [.incomingCall "X" false true "" "",
        .signalMsg false "X" (.offer "o"), .connChange .connected,
        .connChange .failed, .graceTick]).outbox = 1 ∧
    (run initWorld [.incomingCall "X" false true "" "",
        .signalMsg false "X" (.offer "o"), .connChange .connected,
        .connChange .failed, .graceTick]).callStatus = "Connection failed" ∧
    (run initWorld [.incomingCall "X" false true "" "",
        .signalMsg false "X" (.offer "o"), .connChange .connected,
        .connChange .failed, .graceTick]).pendingReset = false ∧
    (livePcs (run initWorld [.incomingCall "X" false true "" "",
        .signalMsg false "X" (.offer "o"), .connChange .connected,
        .connChange .failed, .graceTick])).length = 1 := by decide

/-- C7 (amended): a `connectionState = failed` transition on the current
peer connection emits exactly one call-ended notification to that
session's admin and marks the call inactive with status
"Connection failed"; no grace timer is scheduled, the status is never
reset to waiting, and neither the peer connection nor the media stream is
released by this path. -/
theorem c7_amended_failure_notifies_once_no_idle (w : World) (p : PcE)
    (hp : getPc w = some p) :
    (step w (.connChange .failed)).outbox =
      w.outbox ++ [OutMsg.ended p.isVideo p.admin] ∧
    (step w (.connChange .failed)).isCallActive = false ∧
    (step w (.connChange .failed)).callStatus = "Connection failed" ∧
    (step w (.connChange .failed)).pendingReset = w.pendingReset ∧
    (step w (.connChange .failed)).streams = w.streams ∧
    (step w (.connChange .failed)).pcs = w.pcs := by
  have hstep : step w (.connChange .failed) =
      { w with callStatus := "Connection failed", isCallActive := false
               outbox := w.outbox ++ [OutMsg.ended p.isVideo p.admin] } := by
    show stepConn w .failed = _
    simp [stepConn, hp]
  rw [hstep]
  exact ⟨rfl, rfl, rfl, rfl, rfl, rfl⟩

theorem c7_amended_failure_notifies_once_no_idle_witness :
    getPc (run initWorld [.incomingCall "X" false true "" "",
        .signalMsg false "X" (.offer "o"), .connChange .connected]) =
      some { id := 2, closed := false, isVideo := false, admin := "X",
             remoteDescSet := true, added := [] } ∧
    ((step (run initWorld [.incomingCall "X" false true "" "",
        .signalMsg false "X" (.offer "o"), .connChange .connected])
        (.connChange .failed)).outbox =
      (run initWorld [.incomingCall "X" false true "" "",
        .signalMsg false "X" (.offer "o"), .connChange .connected]).outbox ++
        [OutMsg.ended false "X"] ∧
    (step (run initWorld [.incomingCall "X" false true "" "",
        .signalMsg false "X" (.offer "o"), .connChange .connected])
        (.connChange .failed)).isCallActive = false ∧
    (step (run initWorld [.incomingCall "X" false true "" "",
        .signalMsg false "X" (.offer "o"), .connChange .connected])
        (.connChange .failed)).callStatus = "Connection failed" ∧
    (step (run initWorld [.incomingCall "X" false true "" "",
        .signalMsg false "X" (.offer "o"), .connChange .connected])
        (.connChange .failed)).pendingReset =
      (run initWorld [.incomingCall "X" false true "" "",
        .signalMsg false "X" (.offer "o"), .connChange .connected]).pendingReset ∧
    (step (run initWorld [.incomingCall "X" false true "" "",
        .signalMsg false "X" (.offer "o"), .connChange .connected])
        (.connChange .failed)).streams =
      (run initWorld [.incomingCall "X" false true "" "",
        .signalMsg false "X" (.offer "o"), .connChange .connected]).streams ∧
    (step (run initWorld [.incomingCall "X" false true "" "",
        .signalMsg false "X" (.offer "o"), .connChange .connected])
        (.connChange .failed)).pcs =
      (run initWorld [.incomingCall "X" false true "" "",
        .signalMsg false "X" (.offer "o"), .connChange .connected]).pcs) :=
  ⟨by decide,
   c7_amended_failure_notifies_once_no_idle
     (run initWorld [.incomingCall "X" false true "" "",
        .signalMsg false "X" (.offer "o"), .connChange .connected])
     { id := 2, closed := false, isVideo := false, admin := "X",
       remoteDescSet := true, added := [] }
     (by decide)⟩

/-! ### Lemmas about the regex embedding -/

theorem isEmpty_false_of_ne {t : List Char} (h : t ≠ []) : t.isEmpty = false := by
  cases t with
  | nil => exact absurd rfl h
  | cons a t => rfl

theorem space_of_not_dot {x : Char} (h : jsIsDot x = false) : jsIsSpace x = true := by
  unfold jsIsDot at h
  rw [Bool.not_eq_false'] at h
  rcases Bool.or_eq_true _ _ ▸ h with h' | h4
  · rcases Bool.or_eq_true _ _ ▸ h' with h'' | h3
    · rcases Bool.or_eq_true _ _ ▸ h'' with h1 | h2
      · simp [jsIsSpace, h1]
      · simp [jsIsSpace, h2]
    · simp [jsIsSpace, h3]
  · simp [jsIsSpace, h4]

theorem dot_of_nonspace {x : Char} (h : jsIsNonSpace x = true) : jsIsDot x = true := by
  cases hd : jsIsDot x with
  | true => rfl
  | false =>
    have hs := space_of_not_dot hd
    unfold jsIsNonSpace at h
    rw [hs] at h
    simp at h

theorem dot_of_digit {x : Char} (h : jsIsDigit x = true) : jsIsDot x = true := by
  cases hd : jsIsDot x with
  | true => rfl
  | false =>
    exfalso
    unfold jsIsDot at hd
    rw [Bool.not_eq_false'] at hd
    rcases Bool.or_eq_true _ _ ▸ hd with h' | h4
    · rcases Bool.or_eq_true _ _ ▸ h' with h'' | h3
      · rcases Bool.or_eq_true _ _ ▸ h'' with h1 | h2
        · rw [show x = '\n' from by simpa using h1] at h
          exact absurd h (by decide)
        · rw [show x = '\r' from by simpa using h2] at h
          exact absurd h (by decide)
      · rw [show x = '\u2028' from by simpa using h3] at h
        exact absurd h (by decide)
    · rw [show x = '\u2029' from by simpa using h4] at h
      exact absurd h (by decide)

theorem ne_space_of_nonspace {x : Char} (h : jsIsNonSpace x = true) : x ≠ ' ' := by
  intro he
  rw [he] at h
  exact absurd h (by decide)

theorem ne_space_of_digit {x : Char} (h : jsIsDigit x = true) : x ≠ ' ' := by
  intro he
  rw [he] at h
  exact absurd h (by decide)

theorem all_ne_space_of_nonspace {l : List Char} (h : l.all jsIsNonSpace = true) :
    ∀ x ∈ l, x ≠ ' ' := fun x hx =>
  ne_space_of_nonspace (List.all_eq_true.mp h x hx)

theorem all_ne_space_of_digit {l : List Char} (h : l.all jsIsDigit = true) :
    ∀ x ∈ l, x ≠ ' ' := fun x hx =>
  ne_space_of_digit (List.all_eq_true.mp h x hx)

theorem all_dot_of_all_nonspace {l : List Char} (h : l.all jsIsNonSpace = true) :
    l.all jsIsDot = true :=
  List.all_eq_true.mpr fun x hx => dot_of_nonspace (List.all_eq_true.mp h x hx)

theorem all_dot_of_all_digit {l : List Char} (h : l.all jsIsDigit = true) :
    l.all jsIsDot = true :=
  List.all_eq_true.mpr fun x hx => dot_of_digit (List.all_eq_true.mp h x hx)

theorem takeW_all (p : Char → Bool) :
    ∀ t : List Char, t.all p = true → takeW p t = t ∧ dropW p t = [] := by
  intro t
  induction t with
  | nil => intro _; exact ⟨rfl, rfl⟩
  | cons a t ih =>
    intro h
    rw [List.all_cons] at h
    obtain ⟨ha, ht⟩ := Bool.and_eq_true _ _ ▸ h
    obtain ⟨h1, h2⟩ := ih ht
    constructor
    · simp [takeW, ha, h1]
    · simp [dropW, ha, h2]

theorem takeW_append (p : Char → Bool) :
    ∀ (t : List Char) (c : Char) (r : List Char), t.all p = true → p c = false →
      takeW p (t ++ c :: r) = t ∧ dropW p (t ++ c :: r) = c :: r := by
  intro t
  induction t with
  | nil =>
    intro c r _ hc
    constructor <;> simp [takeW, dropW, hc]
  | cons a t ih =>
    intro c r h hc
    rw [List.all_cons] at h
    obtain ⟨ha, ht⟩ := Bool.and_eq_true _ _ ▸ h
    obtain ⟨h1, h2⟩ := ih c r ht hc
    constructor
    · simp [takeW, ha, h1]
    · simp [dropW, ha, h2]

theorem candTokSp_eval (p : Char → Bool) (t r : List Char)
    (hne : t ≠ []) (hall : t.all p = true) (hsp : p ' ' = false) :
    candTokSp p (t ++ ' ' :: r) = some (t, r) := by
  obtain ⟨h1, h2⟩ := takeW_append p t ' ' r hall hsp
  simp [candTokSp, h1, h2, isEmpty_false_of_ne hne]

theorem matchLit_self : ∀ l r : List Char, matchLit l (l ++ r) = some r := by
  intro l
  induction l with
  | nil => intro r; simp [matchLit]
  | cons a l ih => intro r; simp [matchLit, ih]

theorem matchLit_space_align :
    ∀ (w m b r : List Char), (∀ x ∈ w, x ≠ ' ') → (∀ x ∈ m, x ≠ ' ') →
      matchLit (w ++ [' ']) (m ++ ' ' :: b) = some r → m = w ∧ r = b := by
  intro w
  induction w with
  | nil =>
    intro m b r _ hm h
    simp only [List.nil_append] at h
    cases m with
    | nil =>
      simp only [List.nil_append] at h
      simp [matchLit] at h
      exact ⟨rfl, h.symm⟩
    | cons c m' =>
      have hc : c ≠ ' ' := hm c (List.mem_cons_self _ _)
      simp only [List.cons_append] at h
      simp [matchLit, hc] at h
  | cons a w' ih =>
    intro m b r hw hm h
    have ha : a ≠ ' ' := hw a (List.mem_cons_self _ _)
    simp only [List.cons_append] at h
    cases m with
    | nil =>
      simp only [List.nil_append] at h
      simp [matchLit, Ne.symm ha] at h
    | cons c m' =>
      simp only [List.cons_append] at h
      simp only [matchLit] at h
      by_cases hc : c = a
      · rw [if_pos hc] at h
        obtain ⟨h1, h2⟩ := ih m' b r (fun x hx => hw x (List.mem_cons_of_mem _ hx))
          (fun x hx => hm x (List.mem_cons_of_mem _ hx)) h
        exact ⟨by rw [hc, h1], h2⟩
      · rw [if_neg hc] at h
        cases h

theorem tryTok_fail (w m b : List Char) (p : Char → Bool)
    (hw : ∀ x ∈ w, x ≠ ' ') (hm : ∀ x ∈ m, x ≠ ' ') (hne : m ≠ w) :
    tryTok (w ++ [' ']) p (m ++ ' ' :: b) = none := by
  unfold tryTok
  cases hmt : matchLit (w ++ [' ']) (m ++ ' ' :: b) with
  | none => rfl
  | some r =>
    obtain ⟨h1, _⟩ := matchLit_space_align w m b r hw hm hmt
    exact absurd h1 hne

theorem sufx_cons_false {w : List Char} {c : Char} {m' : List Char}
    (h : sufx w (c :: m') = false) : w ≠ c :: m' ∧ sufx w m' = false := by
  unfold sufx at h
  obtain ⟨h1, h2⟩ := Bool.or_eq_false_iff.mp h
  refine ⟨?_, h2⟩
  intro he
  rw [he] at h1
  simp at h1

theorem sufx_mem : ∀ (m w : List Char), sufx w m = true → ∀ a ∈ w, a ∈ m := by
  intro m
  induction m with
  | nil =>
    intro w h a ha
    cases w with
    | nil => cases ha
    | cons b w' => simp [sufx] at h
  | cons c m' ih =>
    intro w h a ha
    unfold sufx at h
    rcases Bool.or_eq_true _ _ ▸ h with h1 | h2
    · have hw : w = c :: m' := by simpa using h1
      rw [hw] at ha
      exact ha
    · exact List.mem_cons_of_mem _ (ih w h2 a ha)

theorem sufx_ufrag_false_of_digits {idx : List Char} (h : idx.all jsIsDigit = true) :
    sufx "ufrag".data idx = false := by
  cases hs : sufx "ufrag".data idx with
  | false => rfl
  | true =>
    exfalso
    have hu : 'u' ∈ idx := sufx_mem idx "ufrag".data hs 'u' (by decide)
    have := List.all_eq_true.mp h 'u' hu
    exact absurd this (by decide)

theorem findTok_cons_none {lit : List Char} {p : Char → Bool} {c : Char}
    {cs : List Char} (h : tryTok lit p (c :: cs) = none) :
    findTok lit p (c :: cs) = findTok lit p cs := by
  show (match tryTok lit p (c :: cs) with
    | some v => some v
    | none => findTok lit p cs) = findTok lit p cs
  rw [h]

theorem findTok_cons_some {lit : List Char} {p : Char → Bool} {c : Char}
    {cs v : List Char} (h : tryTok lit p (c :: cs) = some v) :
    findTok lit p (c :: cs) = some v := by
  show (match tryTok lit p (c :: cs) with
    | some v => some v
    | none => findTok lit p cs) = some v
  rw [h]

theorem findTok_skip (w : List Char) (p : Char → Bool) (hwne : w ≠ [])
    (hw : ∀ x ∈ w, x ≠ ' ') :
    ∀ m : List Char, (∀ x ∈ m, x ≠ ' ') → sufx w m = false →
      ∀ b, findTok (w ++ [' ']) p (m ++ ' ' :: b) = findTok (w ++ [' ']) p b := by
  intro m
  induction m with
  | nil =>
    intro _ _ b
    show findTok (w ++ [' ']) p (' ' :: b) = findTok (w ++ [' ']) p b
    obtain ⟨a, w', rfl⟩ := List.exists_cons_of_ne_nil hwne
    have ha : a ≠ ' ' := hw a (List.mem_cons_self _ _)
    have htry : tryTok ((a :: w') ++ [' ']) p (' ' :: b) = none := by
      unfold tryTok
      have hmm : matchLit ((a :: w') ++ [' ']) (' ' :: b) = none := by
        show matchLit (a :: (w' ++ [' '])) (' ' :: b) = none
        simp only [matchLit]
        rw [if_neg (fun hh : ' ' = a => ha hh.symm)]
      rw [hmm]
    exact findTok_cons_none htry
  | cons c m' ih =>
    intro hm hs b
    obtain ⟨hne, hs'⟩ := sufx_cons_false hs
    show findTok (w ++ [' ']) p (c :: (m' ++ ' ' :: b)) = _
    have htry : tryTok (w ++ [' ']) p (c :: (m' ++ ' ' :: b)) = none := by
      have := tryTok_fail w (c :: m') b p hw hm (fun hh => hne hh.symm)
      simpa using this
    rw [findTok_cons_none htry]
    exact ih (fun x hx => hm x (List.mem_cons_of_mem _ hx)) hs' b

theorem findTok_skip_space (w : List Char) (p : Char → Bool) (hwne : w ≠ [])
    (hw : ∀ x ∈ w, x ≠ ' ') (b : List Char) :
    findTok (w ++ [' ']) p (' ' :: b) = findTok (w ++ [' ']) p b :=
  findTok_skip w p hwne hw [] (fun x hx => absurd hx (List.not_mem_nil x))
    (isEmpty_false_of_ne hwne) b

theorem findTok_hit (w v : List Char) (p : Char → Bool) (rest : List Char)
    (hv : v ≠ []) (hall : v.all p = true)
    (hrest : rest = [] ∨ ∃ c r, rest = c :: r ∧ p c = false) :
    findTok (w ++ [' ']) p (w ++ ' ' :: (v ++ rest)) = some v := by
  have htk : takeW p (v ++ rest) = v := by
    rcases hrest with rfl | ⟨c, r, rfl, hc⟩
    · rw [List.append_nil]
      exact (takeW_all p v hall).1
    · exact (takeW_append p v c r hall hc).1
  have htry : tryTok (w ++ [' ']) p (w ++ ' ' :: (v ++ rest)) = some v := by
    unfold tryTok
    rw [show w ++ ' ' :: (v ++ rest) = (w ++ [' ']) ++ (v ++ rest) from by
      rw [List.append_assoc]
      rfl]
    rw [matchLit_self]
    simp [htk, isEmpty_false_of_ne hv]
  cases w with
  | nil =>
    rw [List.nil_append] at htry ⊢
    exact findTok_cons_some htry
  | cons a w' =>
    rw [List.cons_append] at htry ⊢
    exact findTok_cons_some htry

theorem findTok_nil (lit : List Char) (p : Char → Bool) :
    findTok lit p [] = none := rfl

theorem findCand_cons_none {c : Char} {cs : List Char}
    (h : candMatchAt (c :: cs) = none) : findCand (c :: cs) = findCand cs := by
  show (match candMatchAt (c :: cs) with
    | some g => some g
    | none => findCand cs) = findCand cs
  rw [h]

theorem findCand_cons_some {c : Char} {cs : List Char} {g : CandGroups}
    (h : candMatchAt (c :: cs) = some g) : findCand (c :: cs) = some g := by
  show (match candMatchAt (c :: cs) with
    | some g => some g
    | none => findCand cs) = some g
  rw [h]

theorem findCand_head (cs : List Char) (g : CandGroups) (hne : cs ≠ [])
    (h : candMatchAt cs = some g) : findCand cs = some g := by
  cases cs with
  | nil => exact absurd rfl hne
  | cons c cs' => exact findCand_cons_some h

theorem rebuildCand_ne_nil (g : CandGroups) : rebuildCand g ≠ [] := by
  unfold rebuildCand
  intro h
  rcases List.append_eq_nil.mp h with ⟨-, h2⟩
  cases h2

theorem findCand_none : ∀ cs : List Char, hasLit candTag cs = false →
    findCand cs = none := by
  intro cs
  induction cs with
  | nil => intro _; rfl
  | cons c cs' ih =>
    intro h
    unfold hasLit at h
    obtain ⟨h1, h2⟩ := Bool.or_eq_false_iff.mp h
    have hcm : candMatchAt (c :: cs') = none := by
      unfold candMatchAt
      cases hm : matchLit candTag (c :: cs') with
      | none => rfl
      | some r =>
        rw [hm] at h1
        simp at h1
    rw [findCand_cons_none hcm]
    exact ih h2

theorem candMatchAt_eval (fnd cmp prot prio ip port ty rest0 : List Char)
    (hfnd : fnd ≠ []) (hfnd2 : fnd.all jsIsNonSpace = true)
    (hcmp : cmp ≠ []) (hcmp2 : cmp.all jsIsDigit = true)
    (hprot : prot ≠ []) (hprot2 : prot.all jsIsWord = true)
    (hprio : prio ≠ []) (hprio2 : prio.all jsIsDigit = true)
    (hip : ip ≠ []) (hip2 : ip.all jsIsNonSpace = true)
    (hport : port ≠ []) (hport2 : port.all jsIsDigit = true)
    (hty : ty ≠ []) (hty2 : ty.all jsIsWord = true)
    (hrest : rest0 = [] ∨ ∃ c r, rest0 = c :: r ∧ jsIsWord c = false)
    (hdot : rest0.all jsIsDot = true) :
    candMatchAt (rebuildCand ⟨fnd, cmp, prot, prio, ip, port, ty, rest0⟩) =
      some ⟨fnd, cmp, prot, prio, ip, port, ty, rest0⟩ := by
  have e0 : matchLit candTag
      (rebuildCand ⟨fnd, cmp, prot, prio, ip, port, ty, rest0⟩) =
      some (fnd ++ ' ' :: (cmp ++ ' ' :: (prot ++ ' ' :: (prio ++ ' ' ::
        (ip ++ ' ' :: (port ++ ' ' :: (typTag ++ ty ++ rest0))))))) := by
    exact matchLit_self candTag _
  have e1 : candTokSp jsIsNonSpace (fnd ++ ' ' :: (cmp ++ ' ' :: (prot ++ ' ' ::
      (prio ++ ' ' :: (ip ++ ' ' :: (port ++ ' ' :: (typTag ++ ty ++ rest0))))))) =
      some (fnd, cmp ++ ' ' :: (prot ++ ' ' :: (prio ++ ' ' ::
      (ip ++ ' ' :: (port ++ ' ' :: (typTag ++ ty ++ rest0)))))) :=
    candTokSp_eval _ _ _ hfnd hfnd2 (by decide)
  have e2 : candTokSp jsIsDigit (cmp ++ ' ' :: (prot ++ ' ' :: (prio ++ ' ' ::
      (ip ++ ' ' :: (port ++ ' ' :: (typTag ++ ty ++ rest0)))))) =
      some (cmp, prot ++ ' ' :: (prio ++ ' ' ::
      (ip ++ ' ' :: (port ++ ' ' :: (typTag ++ ty ++ rest0))))) :=
    candTokSp_eval _ _ _ hcmp hcmp2 (by decide)
  have e3 : candTokSp jsIsWord (prot ++ ' ' :: (prio ++ ' ' ::
      (ip ++ ' ' :: (port ++ ' ' :: (typTag ++ ty ++ rest0))))) =
      some (prot, prio ++ ' ' :: (ip ++ ' ' :: (port ++ ' ' ::
        (typTag ++ ty ++ rest0)))) :=
    candTokSp_eval _ _ _ hprot hprot2 (by decide)
  have e4 : candTokSp jsIsDigit (prio ++ ' ' :: (ip ++ ' ' :: (port ++ ' ' ::
      (typTag ++ ty ++ rest0)))) =
      some (prio, ip ++ ' ' :: (port ++ ' ' :: (typTag ++ ty ++ rest0))) :=
    candTokSp_eval _ _ _ hprio hprio2 (by decide)
  have e5 : candTokSp jsIsNonSpace (ip ++ ' ' :: (port ++ ' ' ::
      (typTag ++ ty ++ rest0))) =
      some (ip, port ++ ' ' :: (typTag ++ ty ++ rest0)) :=
    candTokSp_eval _ _ _ hip hip2 (by decide)
  have e6 : candTokSp jsIsDigit (port ++ ' ' :: (typTag ++ ty ++ rest0)) =
      some (port, typTag ++ ty ++ rest0) :=
    candTokSp_eval _ _ _ hport hport2 (by decide)
  have e7 : matchLit typTag (typTag ++ ty ++ rest0) = some (ty ++ rest0) :=
    matchLit_self typTag (ty ++ rest0)
  have e8 : takeW jsIsWord (ty ++ rest0) = ty ∧
      dropW jsIsWord (ty ++ rest0) = rest0 := by
    rcases hrest with rfl | ⟨c, r, rfl, hc⟩
    · rw [List.append_nil]
      exact takeW_all _ _ hty2
    · exact takeW_append _ _ _ _ hty2 hc
  have e9 : takeW jsIsDot rest0 = rest0 := (takeW_all _ _ hdot).1
  simp only [candMatchAt, e0, e1, e2, e3, e4, e5, e6, e7, e8.1, e8.2, e9,
    isEmpty_false_of_ne hty]
  simp

theorem midTag_eq : midTag = "sdpMid".data ++ [' '] := by decide

theorem mliTag_eq : mliTag = "sdpMLineIndex".data ++ [' '] := by decide

theorem ufragTag_eq : ufragTag = "ufrag".data ++ [' '] := by decide

theorem findTok_mid_eval (mid idx uf : List Char)
    (hmid : mid ≠ []) (hmid2 : mid.all jsIsNonSpace = true) :
    findTok midTag jsIsNonSpace (trailerFull mid idx uf) = some mid := by
  rw [midTag_eq]
  unfold trailerFull
  rw [findTok_skip_space _ _ (by decide) (by decide)]
  exact findTok_hit "sdpMid".data mid jsIsNonSpace _ hmid hmid2
    (Or.inr ⟨' ', _, rfl, by decide⟩)

theorem findTok_mli_eval (mid idx uf : List Char)
    (hmid2 : mid.all jsIsNonSpace = true)
    (hsuf : sufx "sdpMLineIndex".data mid = false)
    (hidx : idx ≠ []) (hidx2 : idx.all jsIsDigit = true) :
    findTok mliTag jsIsDigit (trailerFull mid idx uf) = some idx := by
  rw [mliTag_eq]
  unfold trailerFull
  rw [findTok_skip_space _ _ (by decide) (by decide),
    findTok_skip "sdpMLineIndex".data jsIsDigit (by decide) (by decide)
      "sdpMid".data (by decide) (by decide),
    findTok_skip "sdpMLineIndex".data jsIsDigit (by decide) (by decide)
      mid (all_ne_space_of_nonspace hmid2) hsuf]
  exact findTok_hit "sdpMLineIndex".data idx jsIsDigit _ hidx hidx2
    (Or.inr ⟨' ', _, rfl, by decide⟩)

theorem findTok_ufrag_eval (mid idx uf : List Char)
    (hmid2 : mid.all jsIsNonSpace = true)
    (hsuf : sufx "ufrag".data mid = false)
    (hidx2 : idx.all jsIsDigit = true)
    (huf : uf ≠ []) (huf2 : uf.all jsIsNonSpace = true) :
    findTok ufragTag jsIsNonSpace (trailerFull mid idx uf) = some uf := by
  rw [ufragTag_eq]
  unfold trailerFull
  rw [findTok_skip_space _ _ (by decide) (by decide),
    findTok_skip "ufrag".data jsIsNonSpace (by decide) (by decide)
      "sdpMid".data (by decide) (by decide),
    findTok_skip "ufrag".data jsIsNonSpace (by decide) (by decide)
      mid (all_ne_space_of_nonspace hmid2) hsuf,
    findTok_skip "ufrag".data jsIsNonSpace (by decide) (by decide)
      "sdpMLineIndex".data (by decide) (by decide),
    findTok_skip "ufrag".data jsIsNonSpace (by decide) (by decide)
      idx (all_ne_space_of_digit hidx2) (sufx_ufrag_false_of_digits hidx2)]
  rw [show "ufrag".data ++ ' ' :: uf = "ufrag".data ++ ' ' :: (uf ++ []) from by
    rw [List.append_nil]]
  exact findTok_hit "ufrag".data uf jsIsNonSpace [] huf huf2 (Or.inl rfl)

theorem trailerFull_all_dot {mid idx uf : List Char}
    (hmid : mid.all jsIsNonSpace = true) (hidx : idx.all jsIsDigit = true)
    (huf : uf.all jsIsNonSpace = true) :
    (trailerFull mid idx uf).all jsIsDot = true := by
  have d1 : "sdpMid".data.all jsIsDot = true := by decide
  have d2 : "sdpMLineIndex".data.all jsIsDot = true := by decide
  have d3 : "ufrag".data.all jsIsDot = true := by decide
  have d4 : jsIsDot ' ' = true := by decide
  unfold trailerFull
  simp [List.all_cons, List.all_append, d1, d2, d3, d4,
    all_dot_of_all_nonspace hmid, all_dot_of_all_digit hidx,
    all_dot_of_all_nonspace huf]
  decide

/-- C4: the candidate normalizer.  (i) An already-structured candidate is
returned unchanged.  (ii) A well-formed candidate line whose trailer
carries `sdpMid`, `sdpMLineIndex` and `ufrag` tokens (token values drawn
from the regex's character classes, values not ending in another token's
keyword) parses to the exact structured equivalent, with `usernameFragment`
present.  (iii) A well-formed line with no trailer tokens parses with
`sdpMid = "0"`, `sdpMLineIndex = 0` and `usernameFragment` absent (not an
empty string).  (iv) A malformed string — one in which the literal
`candidate:` never occurs, so the regex cannot match — yields `none`
(and the embedding is a total function, so no exception is possible). -/
theorem c4_candidate_normalizer :
    (∀ c : RTCIceCandidateInit, parseIceCandidate (.structured c) = some c) ∧
    (∀ fnd cmp prot prio ip port ty mid idx uf : List Char,
      fnd ≠ [] → fnd.all jsIsNonSpace = true →
      cmp ≠ [] → cmp.all jsIsDigit = true →
      prot ≠ [] → prot.all jsIsWord = true →
      prio ≠ [] → prio.all jsIsDigit = true →
      ip ≠ [] → ip.all jsIsNonSpace = true →
      port ≠ [] → port.all jsIsDigit = true →
      ty ≠ [] → ty.all jsIsWord = true →
      mid ≠ [] → mid.all jsIsNonSpace = true →
      idx ≠ [] → idx.all jsIsDigit = true →
      uf ≠ [] → uf.all jsIsNonSpace = true →
      sufx "sdpMLineIndex".data mid = false →
      sufx "ufrag".data mid = false →
      parseIceCandidate
        (.line (mkFullLine fnd cmp prot prio ip port ty mid idx uf)) =
      some { candidate := mkFullLine fnd cmp prot prio ip port ty mid idx uf
             sdpMid := some mid.asString
             sdpMLineIndex := some (digitsToNat idx)
             usernameFragment := some uf.asString }) ∧
    (∀ fnd cmp prot prio ip port ty : List Char,
      fnd ≠ [] → fnd.all jsIsNonSpace = true →
      cmp ≠ [] → cmp.all jsIsDigit = true →
      prot ≠ [] → prot.all jsIsWord = true →
      prio ≠ [] → prio.all jsIsDigit = true →
      ip ≠ [] → ip.all jsIsNonSpace = true →
      port ≠ [] → port.all jsIsDigit = true →
      ty ≠ [] → ty.all jsIsWord = true →
      parseIceCandidate (.line (mkBareLine fnd cmp prot prio ip port ty)) =
      some { candidate := mkBareLine fnd cmp prot prio ip port ty
             sdpMid := some "0"
             sdpMLineIndex := some 0
             usernameFragment := none }) ∧
    (∀ s : String, hasLit candTag s.data = false →
      parseIceCandidate (.line s) = none) := by
  refine ⟨fun c => rfl, ?_, ?_, ?_⟩
  · intro fnd cmp prot prio ip port ty mid idx uf hfnd hfnd2 hcmp hcmp2 hprot
      hprot2 hprio hprio2 hip hip2 hport hport2 hty hty2 hmid hmid2 hidx hidx2
      huf huf2 hs1 hs2
    have hcm : candMatchAt (rebuildCand ⟨fnd, cmp, prot, prio, ip, port, ty,
        trailerFull mid idx uf⟩) =
        some ⟨fnd, cmp, prot, prio, ip, port, ty, trailerFull mid idx uf⟩ :=
      candMatchAt_eval fnd cmp prot prio ip port ty (trailerFull mid idx uf)
        hfnd hfnd2 hcmp hcmp2 hprot hprot2 hprio hprio2 hip hip2 hport hport2
        hty hty2 (Or.inr ⟨' ', _, rfl, by decide⟩)
        (trailerFull_all_dot hmid2 hidx2 huf2)
    have hfc : findCand
        (mkFullLine fnd cmp prot prio ip port ty mid idx uf).data =
        some ⟨fnd, cmp, prot, prio, ip, port, ty, trailerFull mid idx uf⟩ := by
      show findCand (rebuildCand ⟨fnd, cmp, prot, prio, ip, port, ty,
        trailerFull mid idx uf⟩) = _
      exact findCand_head _ _ (rebuildCand_ne_nil _) hcm
    show parseIceCandidate
        (.line (mkFullLine fnd cmp prot prio ip port ty mid idx uf)) = _
    simp only [parseIceCandidate]
    rw [hfc]
    simp only [findTok_mid_eval mid idx uf hmid hmid2,
      findTok_mli_eval mid idx uf hmid2 hs1 hidx hidx2,
      findTok_ufrag_eval mid idx uf hmid2 hs2 hidx2 huf huf2,
      Option.getD_some, Option.map_some']
    rfl
  · intro fnd cmp prot prio ip port ty hfnd hfnd2 hcmp hcmp2 hprot hprot2
      hprio hprio2 hip hip2 hport hport2 hty hty2
    have hcm : candMatchAt (rebuildCand ⟨fnd, cmp, prot, prio, ip, port, ty,
        []⟩) = some ⟨fnd, cmp, prot, prio, ip, port, ty, []⟩ :=
      candMatchAt_eval fnd cmp prot prio ip port ty []
        hfnd hfnd2 hcmp hcmp2 hprot hprot2 hprio hprio2 hip hip2 hport hport2
        hty hty2 (Or.inl rfl) rfl
    have hfc : findCand (mkBareLine fnd cmp prot prio ip port ty).data =
        some ⟨fnd, cmp, prot, prio, ip, port, ty, []⟩ := by
      show findCand (rebuildCand ⟨fnd, cmp, prot, prio, ip, port, ty, []⟩) = _
      exact findCand_head _ _ (rebuildCand_ne_nil _) hcm
    show parseIceCandidate (.line (mkBareLine fnd cmp prot prio ip port ty)) = _
    simp only [parseIceCandidate]
    rw [hfc]
    simp only [findTok_nil, Option.getD_none, Option.map_none']
    rfl
  · intro s h
    show parseIceCandidate (.line s) = none
    simp only [parseIceCandidate]
    rw [findCand_none s.data h]

theorem c4_candidate_normalizer_witness :
    parseIceCandidate (.structured { candidate := "x", sdpMid := none, sdpMLineIndex := none, usernameFragment := none }) =
      some { candidate := "x", sdpMid := none, sdpMLineIndex := none, usernameFragment := none } ∧
    parseIceCandidate (.line (mkFullLine "842".data "1".data "udp".data "99".data "10.0.0.1".data "3478".data "srflx".data "A0".data "5".data "abcd".data)) =
      some { candidate := mkFullLine "842".data "1".data "udp".data "99".data "10.0.0.1".data "3478".data "srflx".data "A0".data "5".data "abcd".data, sdpMid := some ("A0".data).asString, sdpMLineIndex := some (digitsToNat "5".data), usernameFragment := some ("abcd".data).asString } ∧
    parseIceCandidate (.line (mkBareLine "842".data "1".data "udp".data "99".data "10.0.0.1".data "3478".data "host".data)) =
      some { candidate := mkBareLine "842".data "1".data "udp".data "99".data "10.0.0.1".data "3478".data "host".data, sdpMid := some "0", sdpMLineIndex := some 0, usernameFragment := none } ∧
    parseIceCandidate (.line "no tag here") = none :=
  ⟨c4_candidate_normalizer.1 _,
   c4_candidate_normalizer.2.1 "842".data "1".data "udp".data "99".data
     "10.0.0.1".data "3478".data "srflx".data "A0".data "5".data "abcd".data
     (by decide) (by decide) (by decide) (by decide) (by decide) (by decide)
     (by decide) (by decide) (by decide) (by decide) (by decide) (by decide)
     (by decide) (by decide) (by decide) (by decide) (by decide) (by decide)
     (by decide) (by decide) (by decide) (by decide),
   c4_candidate_normalizer.2.2.1 "842".data "1".data "udp".data "99".data
     "10.0.0.1".data "3478".data "host".data
     (by decide) (by decide) (by decide) (by decide) (by decide) (by decide)
     (by decide) (by decide) (by decide) (by decide) (by decide) (by decide)
     (by decide) (by decide),
   c4_candidate_normalizer.2.2.2 "no tag here" (by decide)⟩
